import Mathlib

/-!
# BaitBreaker — verification of the resilience and orchestration layer

Shallow embedding of the BaitBreaker Chrome extension (JavaScript) in Lean 4,
covering the components the specification calls THE CORE:

* `safeRuntimeMessage` / `isExtensionContextValid`
  (src/content/clickbait-detector.js, content-script manager) — the
  resilient requester: liveness check, timeout race, bounded retry;
* `CacheManager` (src/background/cache-manager.js) — two-kind TTL +
  size-bounded cache over `chrome.storage.local`;
* `classifyMultipleLinks` / `classifyLink` / `getSummaryForUrl`
  (src/background/service-worker.js) — the bounded-concurrency batch
  orchestrator;
* the keepalive timer of the service worker
  (`startKeepalive` / `stopKeepalive` and the message listener).

Modelling conventions:
* JavaScript thrown exceptions are `Except String` values whose payload is
  the JS error message; `try { … } catch` becomes a `match` on the `Except`.
* `chrome.storage.local` is an association list `Storage` manipulated
  through a `StorageBackend` record, so that a faulting backing store
  (rejected storage promise) can be expressed; `honestBackend` is the
  non-faulting store with chrome's get/set/remove semantics.
* External collaborators that the spec explicitly excludes (§1, §6) —
  the regex/heuristic clickbait rules, the Chrome AI classifier and
  summarizer, the article fetcher — are parameters of the orchestrator,
  exactly as the spec's "pluggable classifier/summarizer".
* Machine integers: `hashText`'s 32-bit signed arithmetic is modelled on
  `Int` with an explicit wrap to `[-2^31, 2^31)`. JS number comparisons on
  confidences/thresholds are modelled on `ℚ` (the values involved are
  small decimal literals).
* Time (`Date.now()`) is an explicit `now : Nat` parameter.
-/

namespace BaitBreaker

/-! ## Configuration (config/config.js) -/

/-- `SENSITIVITY_CONFIG` from config/config.js. -/
structure SensitivityConfig where
  MIN : Nat
  MAX : Nat
  DEFAULT : Nat

def SENSITIVITY_CONFIG : SensitivityConfig :=
  { MIN := 1, MAX := 10, DEFAULT := 5 }

/-- `TIMEOUT_CONFIG` from config/config.js (milliseconds). -/
structure TimeoutConfig where
  CLASSIFICATION_BASE : Nat
  CLASSIFICATION_PER_LINK : Nat
  SUMMARY : Nat
  MESSAGE : Nat
  KEEPALIVE_INTERVAL : Nat

def TIMEOUT_CONFIG : TimeoutConfig :=
  { CLASSIFICATION_BASE := 30000
    CLASSIFICATION_PER_LINK := 5000
    SUMMARY := 30000
    MESSAGE := 45000
    KEEPALIVE_INTERVAL := 5000 }

/-- The `CACHE` sub-record of `PERFORMANCE_CONFIG`. -/
structure PerformanceCacheConfig where
  MAX_SIZE : Nat
  DURATION_DAYS : Nat

/-- `PERFORMANCE_CONFIG` from config/config.js. -/
structure PerformanceConfig where
  CONCURRENT_LIMIT : Nat
  CACHE : PerformanceCacheConfig
  ARTICLE_LENGTH_LIMIT : Nat
  TOOLTIP_SUMMARY_LIMIT : Nat
  ERROR_QUEUE_MAX_SIZE : Nat

def PERFORMANCE_CONFIG : PerformanceConfig :=
  { CONCURRENT_LIMIT := 5
    CACHE := { MAX_SIZE := 1000, DURATION_DAYS := 7 }
    ARTICLE_LENGTH_LIMIT := 10000
    TOOLTIP_SUMMARY_LIMIT := 1000
    ERROR_QUEUE_MAX_SIZE := 50 }

/-- `RETRY_CONFIG` from config/config.js. -/
structure RetryConfig where
  MAX_RETRIES : Nat
  RETRY_DELAY : Nat
  DEBOUNCE_DELAY : Nat

def RETRY_CONFIG : RetryConfig :=
  { MAX_RETRIES := 2, RETRY_DELAY := 1000, DEBOUNCE_DELAY := 500 }

/-! ## ChannelGuard and ResilientRequester
    (content-script manager in src/content/clickbait-detector.js:
    `isExtensionContextValid`, `safeRuntimeMessage`) -/

/-- Bool-valued substring test: `s.includes(sub)` of JS. -/
def containsSub (s sub : String) : Bool :=
  (List.range (s.data.length + 1)).any fun i => sub.data.isPrefixOf (s.data.drop i)

/-- The error-message test on line 1071: `errorMsg.includes('Extension context invalidated')`. -/
def contextInvalidatedMsg (msg : String) : Bool :=
  containsSub msg "Extension context invalidated"

/-- The transient closed-channel test on lines 1077–1079:
`errorMsg.includes('message channel closed') || errorMsg.includes('message port closed')
 || errorMsg.includes('receiving end does not exist')`. -/
def channelClosedMsg (msg : String) : Bool :=
  containsSub msg "message channel closed" ||
  containsSub msg "message port closed" ||
  containsSub msg "receiving end does not exist"

/-- The retry loop of `safeRuntimeMessage` (`for attempt in 0..=maxRetries`).

`live k` is the value of `isExtensionContextValid()` at its `k`-th evaluation
(`k = 0` at function entry, `k ≥ 1` re-checked after the sleep before attempt
`k`); `att k` is the outcome of the `k`-th race of
`chrome.runtime.sendMessage` against the timeout timer: `.ok resp` on
response, `.error msg` when the race rejects with a JS error whose message is
`msg` (the timer fires with message `"TIMEOUT"`).

`k` is the current attempt index and `remaining` the number of attempts still
allowed including this one (so `k + remaining = maxRetries + 1` throughout,
and `attempt < maxRetries` is `1 < remaining`). The second component counts
the transport invocations performed. `remaining = 0` models the fall-through
after the loop (line 1105, unreachable from `safeRuntimeMessage`). -/
def sendAttempts {α : Type} (live : Nat → Bool) (att : Nat → Except String α) :
    Nat → Nat → Except String α × Nat
  | _, 0 => (.error "Unknown error in safeRuntimeMessage", 0)
  | k, remaining + 1 =>
    if 0 < k && !(live k) then (.error "CONTEXT_INVALIDATED", 0)
    else
      match att k with
      | .ok resp => (.ok resp, 1)
      | .error msg =>
        if contextInvalidatedMsg msg then (.error "CONTEXT_INVALIDATED", 1)
        else if channelClosedMsg msg then
          if 0 < remaining then
            let r := sendAttempts live att (k + 1) remaining
            (r.1, r.2 + 1)
          else (.error "MESSAGE_CHANNEL_CLOSED", 1)
        else if msg == "TIMEOUT" then
          if 0 < remaining then
            let r := sendAttempts live att (k + 1) remaining
            (r.1, r.2 + 1)
          else (.error "TIMEOUT", 1)
        else (.error msg, 1)

/-- `safeRuntimeMessage(message, {timeout, maxRetries, retryDelay})`
(content-script manager, lines 1028–1106). Returns the response or the
thrown error message, together with the number of `chrome.runtime.sendMessage`
invocations performed. The entry liveness check (line 1036) throws
`'CONTEXT_INVALIDATED'` before any transport call. -/
def safeRuntimeMessage {α : Type} (live : Nat → Bool) (att : Nat → Except String α)
    (maxRetries : Nat) : Except String α × Nat :=
  if !(live 0) then (.error "CONTEXT_INVALIDATED", 0)
  else sendAttempts live att 0 (maxRetries + 1)

/-! ## Data model: classification records and stored cache entries -/

/-- A classification result object as the service worker and the content
script handle it: `{isClickbait, confidence, reason, error, errorMessage}`.
Fields a given JS object omits are modelled by their JS-falsy defaults
(`undefined` reads as `false` / `0` / `""` in every use site:
`result.confidence || 0`, `result?.isClickbait`, `result.error`). -/
structure Classification where
  isClickbait : Bool
  confidence : ℚ
  reason : String := ""
  error : Bool := false
  errorMessage : String := ""
  deriving DecidableEq, Repr

/-- The per-item failure record produced by `classifyLink`'s catch block
(service-worker.js line 297): `{isClickbait: false, error: true, errorMessage}`. -/
def erroredRecord (msg : String) : Classification :=
  { isClickbait := false, confidence := 0, error := true, errorMessage := msg }

/-- A value held in `chrome.storage.local`. The code stores three shapes:
classification entries `{data, timestamp, type: 'classification'}`
(cache-manager.js line 23), summary entries
`{data, timestamp, url, type: 'summary'}` (line 39), and unrelated values
(settings, `_lastKeepalive`, …) that carry neither a `timestamp` nor a
`type` field — those are `rawValue`. -/
inductive StoredValue : Type
  | classificationEntry (data : Classification) (timestamp : Nat)
  | summaryEntry (data : String) (timestamp : Nat) (url : String)
  | rawValue (payload : String)
  deriving DecidableEq, Repr

/-- `value.timestamp || 0`, the sort key of `enforceMaxSize` (line 99):
a `rawValue` has no `timestamp` field, so it reads as `0`. -/
def StoredValue.ts : StoredValue → Nat
  | .classificationEntry _ t => t
  | .summaryEntry _ t _ => t
  | .rawValue _ => 0

/-- `value?.type`, used by `clearAll` (line 65) and `getStats`. -/
def StoredValue.typeName : StoredValue → Option String
  | .classificationEntry _ _ => some "classification"
  | .summaryEntry _ _ _ => some "summary"
  | .rawValue _ => none

/-! ## chrome.storage.local -/

/-- `chrome.storage.local` contents: keys to stored values, in insertion
order (setting an existing key keeps its position, a new key is appended). -/
abbrev Storage := List (String × StoredValue)

/-- `chrome.storage.local.get(key)`: the value stored under `key`, if any. -/
def Storage.getKey (st : Storage) (k : String) : Option StoredValue :=
  (st.find? fun p => p.1 == k).map (·.2)

/-- `chrome.storage.local.set({[key]: v})`: overwrite in place or append. -/
def Storage.setKey (st : Storage) (k : String) (v : StoredValue) : Storage :=
  if st.any (fun p => p.1 == k) then
    st.map fun p => if p.1 == k then (k, v) else p
  else st ++ [(k, v)]

/-- `chrome.storage.local.remove(keys)`. -/
def Storage.removeKeys (st : Storage) (ks : List String) : Storage :=
  st.filter fun p => !(ks.contains p.1)

/-- Well-formedness: a key/value store never holds duplicate keys. -/
def Storage.WF (st : Storage) : Prop := (st.map Prod.fst).Nodup

/-- The behaviour of the backing store as seen through its promises. Each
operation either resolves (`.ok`) or rejects with an error message
(`.error`) — cache-manager.js performs these calls with no `try`/`catch`,
so a rejection is a thrown exception for its caller. -/
structure StorageBackend where
  get : Storage → String → Except String (Option StoredValue)
  getAll : Storage → Except String Storage
  set : Storage → String → StoredValue → Except String Storage
  remove : Storage → List String → Except String Storage

/-- The non-faulting backing store: plain chrome.storage.local semantics. -/
def honestBackend : StorageBackend :=
  { get := fun st k => .ok (st.getKey k)
    getAll := fun st => .ok st
    set := fun st k v => .ok (st.setKey k v)
    remove := fun st ks => .ok (st.removeKeys ks) }

/-- A backing store whose every operation rejects with message `e`. -/
def faultyBackend (e : String) : StorageBackend :=
  { get := fun _ _ => .error e
    getAll := fun _ => .error e
    set := fun _ _ _ => .error e
    remove := fun _ _ => .error e }

/-- A backing store whose `get`/`set` resolve normally but whose
`getAll`/`remove` — the operations `enforceMaxSize` performs — reject with
message `e`: the situation where a cache write's `set` succeeds and the
subsequent size enforcement throws (e.g. under quota pressure). -/
def enforceFaultBackend (e : String) : StorageBackend :=
  { get := fun st k => .ok (st.getKey k)
    getAll := fun _ => .error e
    set := fun st k v => .ok (st.setKey k v)
    remove := fun _ _ => .error e }

/-! ## CacheManager (src/background/cache-manager.js) -/

/-- The `CacheManager` constructor fields:
`CACHE_DURATION = 7 * 24 * 60 * 60 * 1000`, `MAX_CACHE_SIZE = 1000`. -/
structure CacheManager where
  CACHE_DURATION : Nat := 7 * 24 * 60 * 60 * 1000
  MAX_CACHE_SIZE : Nat := 1000

/-- `new CacheManager()`. -/
def CacheManager.new : CacheManager := {}

/-- JS 32-bit signed wrap (`hash |= 0`): maps `x` into `[-2^31, 2^31)`. -/
def wrap32 (x : Int) : Int := (x + 2 ^ 31) % 2 ^ 32 - 2 ^ 31

/-- One step of `hashText`'s loop:
`hash = ((hash << 5) - hash) + char; hash |= 0`. In JS the shift `hash << 5`
is itself a 32-bit operation, and the outer sum is exact in a float64
before `|= 0` wraps it. -/
def hashStep (hash : Int) (c : Char) : Int :=
  wrap32 (wrap32 (hash * 32) - hash + c.toNat)

/-- `hashText(text)` (cache-manager.js lines 117–125). -/
def hashText (text : String) : String :=
  "bb_" ++ toString (text.data.foldl hashStep 0)

/-- `_classificationKey(text)`. -/
def classificationKey (text : String) : String := "class_" ++ hashText text

/-- The summary key ``summary_${hashText(url)}``. -/
def summaryKey (url : String) : String := "summary_" ++ hashText url

/-- `isValid(entry)` (lines 107–111): `entry && entry.timestamp &&
(Date.now() - entry.timestamp) < this.CACHE_DURATION`. A `rawValue` has no
`timestamp` field (falsy), and a stored `timestamp` of `0` is falsy too.
`Date.now() - timestamp` is truncated subtraction on `Nat`, which agrees
with the JS verdict (a negative difference is also `< CACHE_DURATION`). -/
def CacheManager.isValid (m : CacheManager) (now : Nat) : StoredValue → Bool
  | .classificationEntry _ t => t != 0 && now - t < m.CACHE_DURATION
  | .summaryEntry _ t _ => t != 0 && now - t < m.CACHE_DURATION
  | .rawValue _ => false

/-- Stable insertion of an entry into a list sorted by ascending
`value.timestamp || 0`; together with `sortByTs` this renders the
spec-mandated stable `entries.sort((a, b) => (a.timestamp||0) - (b.timestamp||0))`. -/
def insertByTs (p : String × StoredValue) : Storage → Storage
  | [] => [p]
  | q :: qs => if p.2.ts ≤ q.2.ts then p :: q :: qs else q :: insertByTs p qs

/-- `entries.sort(...)` of `enforceMaxSize` (line 99): stable ascending sort
by `value.timestamp || 0`. -/
def sortByTs : Storage → Storage
  | [] => []
  | p :: ps => insertByTs p (sortByTs ps)

/-- `enforceMaxSize()` (lines 93–105): if the store holds more than
`MAX_CACHE_SIZE` entries, remove the oldest-by-timestamp surplus. -/
def CacheManager.enforceMaxSize (B : StorageBackend) (m : CacheManager)
    (st : Storage) : Except String Storage := do
  let all ← B.getAll st
  if all.length ≤ m.MAX_CACHE_SIZE then pure st
  else
    let sorted := sortByTs all
    let overflow := all.length - m.MAX_CACHE_SIZE
    let toRemove := (sorted.take overflow).map Prod.fst
    if toRemove.length ≠ 0 then B.remove st toRemove else pure st

/-- `getClassification(text)` (lines 12–19): look the key up, return the
entry's `data` if present and valid, else `null`. No exception handling:
a storage rejection propagates. -/
def CacheManager.getClassification (B : StorageBackend) (m : CacheManager)
    (st : Storage) (now : Nat) (text : String) :
    Except String (Option Classification) := do
  let r ← B.get st (classificationKey text)
  match r with
  | some v =>
    if m.isValid now v then
      -- `return result[key].data`; a `class_…` key only ever holds a
      -- classification entry, so `data` is a classification record.
      pure (match v with | .classificationEntry data _ => some data | _ => none)
    else pure none
  | none => pure none

/-- `saveClassification(text, classification)` (lines 21–26): store
`{data, timestamp: Date.now(), type: 'classification'}` then enforce the
size bound. `chrome.storage.local` is mutated in place, so a thrown error
does not undo earlier steps: the `.error` carries the storage as mutated at
the point of the throw — a rejected `set` leaves the store unchanged, while
a `set` that resolved before `enforceMaxSize` threw leaves the entry
written (each backend operation is transactional: it either resolves with
the new store or rejects leaving it as it was). -/
def CacheManager.saveClassification (B : StorageBackend) (m : CacheManager)
    (st : Storage) (now : Nat) (text : String) (cls : Classification) :
    Except (String × Storage) Storage :=
  match B.set st (classificationKey text) (.classificationEntry cls now) with
  | .error e => .error (e, st)
  | .ok st1 =>
    match m.enforceMaxSize B st1 with
    | .error e => .error (e, st1)
    | .ok st2 => .ok st2

/-- `getSummary(url)` (lines 28–35). -/
def CacheManager.getSummary (B : StorageBackend) (m : CacheManager)
    (st : Storage) (now : Nat) (url : String) :
    Except String (Option String) := do
  let r ← B.get st (summaryKey url)
  match r with
  | some v =>
    if m.isValid now v then
      -- `return result[key].data`; a `summary_…` key only ever holds a
      -- summary entry, so `data` is the summary string.
      pure (match v with | .summaryEntry data _ _ => some data | _ => none)
    else pure none
  | none => pure none

/-- `saveSummary(url, summary)` (lines 37–42). As with
`saveClassification`, a thrown error carries the storage as mutated at the
point of the throw: a `set` that resolved before `enforceMaxSize` threw
leaves the summary entry written. -/
def CacheManager.saveSummary (B : StorageBackend) (m : CacheManager)
    (st : Storage) (now : Nat) (url : String) (summary : String) :
    Except (String × Storage) Storage :=
  match B.set st (summaryKey url) (.summaryEntry summary now url) with
  | .error e => .error (e, st)
  | .ok st1 =>
    match m.enforceMaxSize B st1 with
    | .error e => .error (e, st1)
    | .ok st2 => .ok st2

/-- The result object of `clearAll` (line 75). -/
structure ClearResult where
  success : Bool
  cleared : Nat
  deriving DecidableEq, Repr

/-- `value?.type === 'classification' || value?.type === 'summary'`
(line 65). -/
def isCacheTyped (v : StoredValue) : Bool :=
  v.typeName == some "classification" || v.typeName == some "summary"

/-- `clearAll()` (lines 57–76): remove every stored value whose `type` is
`'classification'` or `'summary'`, keep everything else, report the count. -/
def CacheManager.clearAll (B : StorageBackend) (st : Storage) :
    Except String (Storage × ClearResult) := do
  let all ← B.getAll st
  let cacheKeys := (all.filter fun p => isCacheTyped p.2).map Prod.fst
  let st' ← if cacheKeys.length ≠ 0 then B.remove st cacheKeys else pure st
  pure (st', { success := true, cleared := cacheKeys.length })

/-! ## Classifier Orchestrator (src/background/service-worker.js) -/

/-- A link handed to `classifyLinks`: `{text, href}`. -/
structure Link where
  text : String
  href : String
  deriving DecidableEq, Repr

/-- `Math.max(1, Math.min(10, Number(sensitivity) || SENSITIVITY_CONFIG.DEFAULT)) / 10`
(service-worker.js line 287). `Number(s) || 5` maps the falsy `0` (and a
non-numeric sensitivity) to the default. -/
def sensThreshold (sens : ℚ) : ℚ :=
  max 1 (min 10 (if sens = 0 then (SENSITIVITY_CONFIG.DEFAULT : ℚ) else sens)) / 10

/-- The sensitivity adjustment of the AI branch (lines 287–289):
`isClickbait = (classification.confidence || 0) >= threshold && !!classification.isClickbait;
 adjusted = { ...classification, isClickbait }`. -/
def adjustClassification (sens : ℚ) (c : Classification) : Classification :=
  { c with isClickbait := decide (sensThreshold sens ≤ c.confidence) && c.isClickbait }

/-- Everything `classifyMultipleLinks` closes over: the storage backend and
cache manager, the two pluggable collaborators (the spec's §6 external
classifier; the regex rules are excluded from the core by spec §1), the
request's detection mode and sensitivity, and the clock. -/
structure ClassifyEnv where
  B : StorageBackend
  m : CacheManager
  /-- `regexDetect` (src/content/clickbait-detector.js) — an excluded
  external collaborator: a pure text classifier. -/
  regexFn : String → Classification
  /-- `aiManager.classifyClickbait` — the external model-backed classifier;
  `.error msg` models a thrown exception. -/
  aiFn : String → Except String Classification
  detectionMode : String
  sensitivity : ℚ
  now : Nat

/-- The `else` branch of `classifyLink` (service-worker.js lines 277–293),
reached when there is no usable cached record: regex mode classifies with
the regex collaborator; AI mode invokes the external classifier, writes the
raw classification to the cache, and returns the sensitivity-adjusted
record. Thrown errors (classifier or cache write) become the errored
record via the enclosing catch. -/
def classifyLinkUncached (env : ClassifyEnv) (st : Storage) (link : Link) :
    Classification × Storage × Nat :=
  if env.detectionMode == "regex" then (env.regexFn link.text, st, 0)
  else
    match env.aiFn link.text with
    | .error e => (erroredRecord e, st, 1)
    | .ok classification =>
      match env.m.saveClassification env.B st env.now link.text classification with
      | .error ef => (erroredRecord ef.1, ef.2, 1)
      | .ok st' => (adjustClassification env.sensitivity classification, st', 1)

/-- The per-item closure `classifyLink` (service-worker.js lines 271–299).
Returns the item's result, the storage afterwards, and the number of AI
classifier invocations (`aiManager.classifyClickbait` calls) made:
`if (cached && detectionMode === 'chrome-ai') return cached; else …`. The
surrounding `try { … } catch (error)` turns any thrown error into
`{isClickbait: false, error: true, errorMessage}` for this item only. -/
def classifyLink (env : ClassifyEnv) (st : Storage) (link : Link) :
    Classification × Storage × Nat :=
  match env.m.getClassification env.B st env.now link.text with
  | .error e => (erroredRecord e, st, 0)
  | .ok cached =>
    match cached with
    | some c =>
      if env.detectionMode == "chrome-ai" then (c, st, 0)
      else classifyLinkUncached env st link
    | none => classifyLinkUncached env st link

/-- Sequential execution of `classifyLink` over a list of links, threading
the storage and accumulating the AI invocation count. This is the canonical
schedule of the chunk loop: `Promise.all(batch.map(classifyLink))` awaited
chunk by chunk (the index-alignment of results is schedule-independent, see
`assembleByCompletion`). -/
def runLinks (env : ClassifyEnv) (st : Storage) :
    List Link → List Classification × Storage × Nat
  | [] => ([], st, 0)
  | l :: ls =>
    let r := classifyLink env st l
    let rest := runLinks env r.2.1 ls
    (r.1 :: rest.1, rest.2.1, r.2.2 + rest.2.2)

/-- The iterations of the chunking loop, with an explicit bound `fuel` on
the iteration count that keeps the recursion structural. Each iteration
takes one `slice(i, i + L)` chunk and continues after it. -/
def chunksOfFuel (L : Nat) : Nat → List α → List (List α)
  | _, [] => []
  | 0, _ :: _ => []
  | fuel + 1, x :: rest => (x :: rest).take L :: chunksOfFuel L fuel ((x :: rest).drop L)

/-- The chunking loop of `classifyMultipleLinks` (lines 303–307):
`for (let i = 0; i < links.length; i += CONCURRENT_LIMIT)
   { const batch = links.slice(i, i + CONCURRENT_LIMIT); … }`.
Each iteration advances `i` by `L`, so for `L ≥ 1` the loop runs at most
`xs.length` iterations and `xs.length` is always enough fuel. With `L = 0`
the JS loop would not terminate; the model returns `[]` (every use site has
`L = PERFORMANCE_CONFIG.CONCURRENT_LIMIT = 5`). -/
def chunksOf (L : Nat) (xs : List α) : List (List α) :=
  if L = 0 then [] else chunksOfFuel L xs.length xs

/-- `classifyMultipleLinks(links, detectionMode, sensitivity)`
(lines 264–311): process the links in chunks of `CONCURRENT_LIMIT`,
strictly sequentially, appending each awaited chunk's results. -/
def classifyMultipleLinks (env : ClassifyEnv) (st : Storage) (links : List Link) :
    List Classification × Storage × Nat :=
  (chunksOf PERFORMANCE_CONFIG.CONCURRENT_LIMIT links).foldl
    (fun acc chunk =>
      let r := runLinks env acc.2.1 chunk
      (acc.1 ++ r.1, r.2.1, acc.2.2 + r.2.2))
    ([], st, 0)

/-- `Promise.all` result placement: each task that completes writes its
result into its own slot of the result array, whatever the completion
order. `rs` are the per-index task results and `order` the sequence of
indices in completion order. -/
def assembleByCompletion (rs : List α) (order : List Nat) : List (Option α) :=
  order.foldl (fun acc i => acc.set i rs[i]?) (List.replicate rs.length none)

/-! ## getSummaryForUrl (service-worker.js lines 313–326) -/

/-- The string built by the catch block on line 324. -/
def unableSummaryMsg (e : String) : String := "Unable to generate summary. " ++ e

/-- `getSummaryForUrl(url)`: cached summary if valid, else fetch the
article (`articleFetcher.fetchAndParse`, external collaborator `fetch`),
summarize it (`aiManager.summarizeArticle`, external collaborator `summ`),
cache and return the summary. The enclosing `try`/`catch` turns every
thrown error — cache read, fetch, summarization, or cache write — into the
ordinary string response `'Unable to generate summary. ' + error.message`;
the catch does not undo storage mutations that already happened, so a cache
write whose `set` resolved before `enforceMaxSize` threw leaves the summary
cached. Returns the response, the storage afterwards, and the number of
article fetches performed. -/
def getSummaryForUrl (B : StorageBackend) (m : CacheManager)
    (fetch : String → Except String String) (summ : String → Except String String)
    (now : Nat) (st : Storage) (url : String) : String × Storage × Nat :=
  match m.getSummary B st now url with
  | .error e => (unableSummaryMsg e, st, 0)
  | .ok (some cached) => (cached, st, 0)
  | .ok none =>
    match fetch url with
    | .error e => (unableSummaryMsg e, st, 1)
    | .ok article =>
      match summ article with
      | .error e => (unableSummaryMsg e, st, 1)
      | .ok summary =>
        match m.saveSummary B st now url summary with
        | .error ef => (unableSummaryMsg ef.1, ef.2, 1)
        | .ok st' => (summary, st', 1)

/-! ## Keepalive (service-worker.js lines 140–173 and the message listener
    lines 345–389) -/

/-- The service worker state relevant to the heartbeat:
`keepaliveActive` is `this.keepaliveInterval !== null`, and `outstanding`
is the (ghost) number of guarded operations (`classifyLinks`/`getSummary`
messages) currently in flight. -/
structure ServiceState where
  keepaliveActive : Bool
  outstanding : Nat
  deriving DecidableEq, Repr

/-- The constructor: `this.keepaliveInterval = null`, nothing in flight. -/
def ServiceState.init : ServiceState := { keepaliveActive := false, outstanding := 0 }

/-- `startKeepalive()` (lines 140–165): `if (this.keepaliveInterval) return;`
then create the interval — idempotent by the guard. -/
def startKeepalive (s : ServiceState) : ServiceState :=
  if s.keepaliveActive then s else { s with keepaliveActive := true }

/-- `stopKeepalive()` (lines 167–173): clear the interval if one exists. -/
def stopKeepalive (s : ServiceState) : ServiceState :=
  if s.keepaliveActive then { s with keepaliveActive := false } else s

/-- The two keepalive-relevant events of a guarded operation's lifetime:
`opStart` — `handleMessage` receives `classifyLinks`/`getSummary` and calls
`startKeepalive()` (line 204); `opDone` — the listener's `handleAsync` calls
`service.stopKeepalive()` right after `sendResponse` (lines 364 and 379),
on success and on error alike. -/
inductive GuardedEvent : Type
  | opStart
  | opDone
  deriving DecidableEq, Repr

/-- Effect of one event on the service state. -/
def serviceStep (s : ServiceState) : GuardedEvent → ServiceState
  | .opStart => { startKeepalive s with outstanding := s.outstanding + 1 }
  | .opDone => { stopKeepalive s with outstanding := s.outstanding - 1 }

/-- A sequence of guarded-operation events applied to the service state. -/
def runEvents (s : ServiceState) (es : List GuardedEvent) : ServiceState :=
  es.foldl serviceStep s

/-! ## Concrete fixtures used by witnesses and counterexamples -/

/-- A non-clickbait classification record. -/
def plainResult : Classification := { isClickbait := false, confidence := 0 }

/-- A raw AI classification: flagged, but with confidence `0.3` below the
default sensitivity threshold `0.5`. -/
def lowConfidenceCB : Classification :=
  { isClickbait := true, confidence := 3 / 10, reason := "curiosity gap" }

/-- An AI-mode environment over the honest store whose classifier always
returns `lowConfidenceCB`. -/
def aiOkEnv (now : Nat) : ClassifyEnv :=
  { B := honestBackend, m := CacheManager.new, regexFn := fun _ => plainResult
    aiFn := fun _ => .ok lowConfidenceCB, detectionMode := "chrome-ai"
    sensitivity := 5, now := now }

/-- An AI-mode environment whose classifier always throws `'boom'`. -/
def aiFailEnv : ClassifyEnv :=
  { B := honestBackend, m := CacheManager.new, regexFn := fun _ => plainResult
    aiFn := fun _ => .error "boom", detectionMode := "chrome-ai"
    sensitivity := 5, now := 1 }

/-- A regex-mode environment over the honest store. -/
def regexEnv (now : Nat) : ClassifyEnv :=
  { B := honestBackend, m := CacheManager.new, regexFn := fun _ => plainResult
    aiFn := fun _ => .ok lowConfidenceCB, detectionMode := "regex"
    sensitivity := 5, now := now }

/-- A store already holding the valid classification entry written for the
text `"t"` at time 1. -/
def seededStorage : Storage :=
  [(classificationKey "t", .classificationEntry lowConfidenceCB 1)]

/-- A store holding one classification entry, one unrelated (settings-like)
value and one summary entry. -/
def mixedStorage : Storage :=
  [(classificationKey "x", .classificationEntry plainResult 1),
   ("settings", .rawValue "cfg"),
   (summaryKey "y", .summaryEntry "sum" 2 "y")]

/-- A store holding a valid summary entry for the url `"u"`, written at
time 1. -/
def summaryStorage : Storage :=
  [(summaryKey "u", .summaryEntry "cached summary" 1 "u")]

/-! ## Sequences of cache writes (for the size-bound invariant) -/

/-- One recorded `saveClassification(text, classification)` call, with the
`Date.now()` value observed inside it. -/
structure SaveOp where
  text : String
  data : Classification
  time : Nat
  deriving DecidableEq, Repr

/-- Run a sequence of `saveClassification` calls against the honest store. -/
def applyWrites (m : CacheManager) (st : Storage) : List SaveOp → Except String Storage
  | [] => .ok st
  | w :: ws =>
    match m.saveClassification honestBackend st w.time w.text w.data with
    | .error ef => .error ef.1
    | .ok st' => applyWrites m st' ws

/-- The stored entries a sequence of distinct-key writes produces, in write
order. -/
def entriesOfWrites (ws : List SaveOp) : Storage :=
  ws.map fun w => (classificationKey w.text, .classificationEntry w.data w.time)

/-! ## Theorems -/

/-- **C1.** For every request and options, if the channel liveness check
(`isExtensionContextValid`, here the value `live 0` observed at entry)
reports the channel dead at the moment `safeRuntimeMessage` is called, then
the call throws `'CONTEXT_INVALIDATED'` (ChannelDead) immediately and
performs zero transport invocations: `chrome.runtime.sendMessage` is never
called. -/
theorem safeRuntimeMessage_dead_at_entry {α : Type} (live : Nat → Bool)
    (att : Nat → Except String α) (maxRetries : Nat) (h : live 0 = false) :
    safeRuntimeMessage live att maxRetries = (.error "CONTEXT_INVALIDATED", 0) := by
  simp [safeRuntimeMessage, h]

/-- Witness for C1: a concretely dead channel, concrete transport, the
configured `maxRetries`. -/
theorem safeRuntimeMessage_dead_at_entry_witness :
    (fun _ : Nat => false) 0 = false ∧
    safeRuntimeMessage (fun _ => false) (fun _ => Except.ok (37 : Nat))
      RETRY_CONFIG.MAX_RETRIES = (.error "CONTEXT_INVALIDATED", 0) :=
  ⟨rfl, safeRuntimeMessage_dead_at_entry _ _ RETRY_CONFIG.MAX_RETRIES rfl⟩

/-- One-step unfolding of the retry loop body. -/
theorem sendAttempts_succ {α : Type} (live : Nat → Bool)
    (att : Nat → Except String α) (k r : Nat) :
    sendAttempts live att k (r + 1) =
      (if 0 < k && !(live k) then (.error "CONTEXT_INVALIDATED", 0)
       else
         match att k with
         | .ok resp => (.ok resp, 1)
         | .error msg =>
           if contextInvalidatedMsg msg then (.error "CONTEXT_INVALIDATED", 1)
           else if channelClosedMsg msg then
             if 0 < r then
               ((sendAttempts live att (k + 1) r).1,
                 (sendAttempts live att (k + 1) r).2 + 1)
             else (.error "MESSAGE_CHANNEL_CLOSED", 1)
           else if msg == "TIMEOUT" then
             if 0 < r then
               ((sendAttempts live att (k + 1) r).1,
                 (sendAttempts live att (k + 1) r).2 + 1)
             else (.error "TIMEOUT", 1)
           else (.error msg, 1)) := rfl

/-- The retry loop under a permanently live channel and persistently
closed-channel transport failures: every allowed attempt is made, and the
loop ends by throwing `'MESSAGE_CHANNEL_CLOSED'`. -/
theorem sendAttempts_all_closed {α : Type} (live : Nat → Bool)
    (att : Nat → Except String α) (msgs : Nat → String)
    (hlive : ∀ k, live k = true) (hatt : ∀ k, att k = .error (msgs k))
    (hclosed : ∀ k, channelClosedMsg (msgs k) = true)
    (hctx : ∀ k, contextInvalidatedMsg (msgs k) = false) :
    ∀ r k, sendAttempts live att k (r + 1) =
      (.error "MESSAGE_CHANNEL_CLOSED", r + 1) := by
  intro r
  induction r with
  | zero =>
    intro k
    rw [sendAttempts_succ]
    simp [hlive k, hatt k, hclosed k, hctx k]
  | succ n ih =>
    intro k
    rw [sendAttempts_succ]
    simp [hlive k, hatt k, hclosed k, hctx k, ih (k + 1)]

/-- **C2.** For every `maxRetries ≥ 0`, if the channel stays live and every
transport attempt fails with a transient closed-channel condition (an error
message matching the closed-channel tests and not the context-invalidation
test), then `safeRuntimeMessage` invokes the transport exactly
`maxRetries + 1` times and ultimately throws `'MESSAGE_CHANNEL_CLOSED'`
(ChannelClosed). -/
theorem safeRuntimeMessage_all_closed {α : Type} (live : Nat → Bool)
    (att : Nat → Except String α) (msgs : Nat → String) (maxRetries : Nat)
    (hlive : ∀ k, live k = true) (hatt : ∀ k, att k = .error (msgs k))
    (hclosed : ∀ k, channelClosedMsg (msgs k) = true)
    (hctx : ∀ k, contextInvalidatedMsg (msgs k) = false) :
    safeRuntimeMessage live att maxRetries =
      (.error "MESSAGE_CHANNEL_CLOSED", maxRetries + 1) := by
  simp [safeRuntimeMessage, hlive 0,
    sendAttempts_all_closed live att msgs hlive hatt hclosed hctx maxRetries 0]

/-- Witness for C2: a live channel whose every attempt rejects with
`'message channel closed'`, at the configured `maxRetries = 2`: exactly 3
transport invocations, final error `'MESSAGE_CHANNEL_CLOSED'`. -/
theorem safeRuntimeMessage_all_closed_witness :
    channelClosedMsg "message channel closed" = true ∧
    contextInvalidatedMsg "message channel closed" = false ∧
    safeRuntimeMessage (fun _ => true)
      (fun _ => (Except.error "message channel closed" : Except String Nat))
      RETRY_CONFIG.MAX_RETRIES = (.error "MESSAGE_CHANNEL_CLOSED", 3) := by
  have hc : channelClosedMsg "message channel closed" = true := by decide
  have hx : contextInvalidatedMsg "message channel closed" = false := by decide
  exact ⟨hc, hx,
    safeRuntimeMessage_all_closed _ _ (fun _ => "message channel closed")
      RETRY_CONFIG.MAX_RETRIES (fun _ => rfl) (fun _ => rfl)
      (fun _ => hc) (fun _ => hx)⟩

/-! ### Chunking lemmas -/

theorem chunksOfFuel_flatten {α : Type} (L : Nat) (hL : 0 < L) :
    ∀ (fuel : Nat) (xs : List α), xs.length ≤ fuel →
      (chunksOfFuel L fuel xs).flatten = xs := by
  intro fuel
  induction fuel with
  | zero =>
    intro xs h
    rcases xs with _ | ⟨x, rest⟩
    · rfl
    · simp at h
  | succ n ih =>
    intro xs h
    rcases xs with _ | ⟨x, rest⟩
    · rfl
    · simp only [chunksOfFuel, List.flatten_cons]
      rw [ih (List.drop L (x :: rest))
        (by simp only [List.length_drop, List.length_cons]
            simp only [List.length_cons] at h
            omega)]
      exact List.take_append_drop L (x :: rest)

theorem chunksOfFuel_length {α : Type} (L : Nat) (hL : 0 < L) :
    ∀ (fuel : Nat) (xs : List α), xs.length ≤ fuel →
      (chunksOfFuel L fuel xs).length = (xs.length + L - 1) / L := by
  intro fuel
  induction fuel with
  | zero =>
    intro xs h
    rcases xs with _ | ⟨x, rest⟩
    · simp [chunksOfFuel, Nat.div_eq_of_lt (by omega : L - 1 < L)]
    · simp at h
  | succ n ih =>
    intro xs h
    rcases xs with _ | ⟨x, rest⟩
    · simp [chunksOfFuel, Nat.div_eq_of_lt (by omega : L - 1 < L)]
    · simp only [chunksOfFuel, List.length_cons]
      rw [ih (List.drop L (x :: rest))
        (by simp only [List.length_drop, List.length_cons]
            simp only [List.length_cons] at h
            omega)]
      simp only [List.length_drop, List.length_cons]
      rcases le_or_lt (rest.length + 1) L with hle | hlt
      · have h0 : rest.length + 1 - L + L - 1 = L - 1 := by omega
        have h1 : (rest.length + 1 + L - 1) / L = 1 :=
          Nat.div_eq_of_lt_le (by omega) (by omega)
        rw [h0, Nat.div_eq_of_lt (by omega : L - 1 < L), h1]
      · have h1 : rest.length + 1 - L + L - 1 = rest.length := by omega
        have h2 : rest.length + 1 + L - 1 = rest.length + L := by omega
        rw [h1, h2, Nat.add_div_right _ hL, Nat.add_comm]

theorem chunksOfFuel_mem_le {α : Type} (L : Nat) :
    ∀ (fuel : Nat) (xs : List α) (c : List α),
      c ∈ chunksOfFuel L fuel xs → c.length ≤ L := by
  intro fuel
  induction fuel with
  | zero =>
    intro xs c hc
    rcases xs with _ | ⟨x, rest⟩ <;> simp [chunksOfFuel] at hc
  | succ n ih =>
    intro xs c hc
    rcases xs with _ | ⟨x, rest⟩
    · simp [chunksOfFuel] at hc
    · simp only [chunksOfFuel, List.mem_cons] at hc
      rcases hc with rfl | hc
      · simp [List.length_take]
      · exact ih _ _ hc

theorem chunksOf_flatten {α : Type} (L : Nat) (hL : 0 < L) (xs : List α) :
    (chunksOf L xs).flatten = xs := by
  unfold chunksOf
  rw [if_neg hL.ne']
  exact chunksOfFuel_flatten L hL xs.length xs le_rfl

theorem chunksOf_length {α : Type} (L : Nat) (hL : 0 < L) (xs : List α) :
    (chunksOf L xs).length = (xs.length + L - 1) / L := by
  unfold chunksOf
  rw [if_neg hL.ne']
  exact chunksOfFuel_length L hL xs.length xs le_rfl

theorem chunksOf_mem_le {α : Type} (L : Nat) (xs : List α) (c : List α)
    (hc : c ∈ chunksOf L xs) : c.length ≤ L := by
  unfold chunksOf at hc
  by_cases h0 : L = 0
  · rw [if_pos h0] at hc; simp at hc
  · rw [if_neg h0] at hc; exact chunksOfFuel_mem_le L xs.length xs c hc

theorem chunksOf_seven {α : Type} (xs : List α) (h : xs.length = 7) :
    (chunksOf 5 xs).map List.length = [5, 2] := by
  rcases xs with _|⟨a,_|⟨b,_|⟨c,_|⟨d,_|⟨e,_|⟨f,_|⟨g,_|⟨h8,t⟩⟩⟩⟩⟩⟩⟩⟩ <;>
    simp only [List.length_cons, List.length_nil] at h <;> try omega
  rfl

/-- The maximum number of classifier invocations simultaneously outstanding
across the whole batch: within a chunk `Promise.all(batch.map(classifyLink))`
starts every item of the chunk at once, and the `await` completes the whole
chunk before the next one starts, so the peak is the largest chunk size. -/
def peakConcurrency (L : Nat) (xs : List α) : Nat :=
  ((chunksOf L xs).map List.length).foldr max 0

theorem foldr_max_le_of_all (L : Nat) :
    ∀ l : List Nat, (∀ a ∈ l, a ≤ L) → l.foldr max 0 ≤ L := by
  intro l
  induction l with
  | nil => intro _; simp
  | cons a rest ih =>
    intro h
    simp only [List.foldr_cons]
    exact max_le (h a (by simp)) (ih fun b hb => h b (by simp [hb]))

/-! ### Sequential-run lemmas for the orchestrator -/

theorem runLinks_append (env : ClassifyEnv) (st : Storage) (as bs : List Link) :
    runLinks env st (as ++ bs) =
      ((runLinks env st as).1 ++ (runLinks env (runLinks env st as).2.1 bs).1,
       (runLinks env (runLinks env st as).2.1 bs).2.1,
       (runLinks env st as).2.2 + (runLinks env (runLinks env st as).2.1 bs).2.2) := by
  induction as generalizing st with
  | nil => simp [runLinks]
  | cons l ls ih => simp [runLinks, ih, Nat.add_assoc]

theorem foldChunks_eq (env : ClassifyEnv) :
    ∀ (chunks : List (List Link)) (acc : List Classification × Storage × Nat),
      chunks.foldl
        (fun acc chunk =>
          let r := runLinks env acc.2.1 chunk
          (acc.1 ++ r.1, r.2.1, acc.2.2 + r.2.2)) acc =
      (acc.1 ++ (runLinks env acc.2.1 chunks.flatten).1,
       (runLinks env acc.2.1 chunks.flatten).2.1,
       acc.2.2 + (runLinks env acc.2.1 chunks.flatten).2.2) := by
  intro chunks
  induction chunks with
  | nil => intro acc; simp [runLinks]
  | cons c cs ih =>
    intro acc
    simp only [List.foldl_cons, List.flatten_cons]
    rw [ih]
    simp [runLinks_append, List.append_assoc, Nat.add_assoc]

/-- Chunk-by-chunk processing, each chunk awaited in full before the next
starts, computes the same results, final storage, and invocation count as
the fully sequential run over all links. -/
theorem classifyMultipleLinks_eq_runLinks (env : ClassifyEnv) (st : Storage)
    (links : List Link) :
    classifyMultipleLinks env st links = runLinks env st links := by
  unfold classifyMultipleLinks
  rw [foldChunks_eq, chunksOf_flatten PERFORMANCE_CONFIG.CONCURRENT_LIMIT (by decide)]
  simp

theorem runLinks_length (env : ClassifyEnv) :
    ∀ (ls : List Link) (st : Storage), (runLinks env st ls).1.length = ls.length := by
  intro ls
  induction ls with
  | nil => intro st; rfl
  | cons l rest ih => intro st; simp [runLinks, ih]

theorem runLinks_getElem (env : ClassifyEnv) :
    ∀ (ls : List Link) (st : Storage) (i : Nat),
      (runLinks env st ls).1[i]? =
        (ls[i]?).map fun l => (classifyLink env (runLinks env st (ls.take i)).2.1 l).1 := by
  intro ls
  induction ls with
  | nil => intro st i; simp [runLinks]
  | cons l rest ih =>
    intro st i
    cases i with
    | zero => simp [runLinks]
    | succ n => simp [runLinks, ih]

/-! ### Promise.all placement lemmas -/

theorem assemble_len {α : Type} (rs : List α) (order : List Nat) :
    ∀ acc : List (Option α),
      (order.foldl (fun acc i => acc.set i rs[i]?) acc).length = acc.length := by
  induction order with
  | nil => intro acc; rfl
  | cons i rest ih =>
    intro acc
    simp only [List.foldl_cons]
    rw [ih]
    exact List.length_set ..

theorem assemble_get {α : Type} (rs : List α) :
    ∀ (order : List Nat) (acc : List (Option α)), acc.length = rs.length →
      (∀ j, j < rs.length → (j ∈ order ∨ acc[j]? = some rs[j]?)) →
      ∀ j, j < rs.length →
        (order.foldl (fun acc i => acc.set i rs[i]?) acc)[j]? = some rs[j]? := by
  intro order
  induction order with
  | nil =>
    intro acc _ hcov j hj
    rcases hcov j hj with hmem | hval
    · simp at hmem
    · simpa using hval
  | cons i rest ih =>
    intro acc hlen hcov j hj
    simp only [List.foldl_cons]
    refine ih (acc.set i rs[i]?) (by rw [List.length_set]; exact hlen) ?_ j hj
    intro j' hj'
    rcases hcov j' hj' with hmem | hval
    · rcases List.mem_cons.mp hmem with rfl | hmem'
      · right
        rw [List.getElem?_set_self (by omega)]
      · left; exact hmem'
    · by_cases hij : i = j'
      · subst hij
        right
        rw [List.getElem?_set_self (by omega)]
      · right
        rw [List.getElem?_set_ne hij]
        exact hval

/-- `Promise.all` places each task's result at the task's own index: as soon
as every index completes — in whatever order — the assembled array is the
results in input order. -/
theorem assemble_eq {α : Type} (rs : List α) (order : List Nat)
    (hcov : ∀ j, j < rs.length → j ∈ order) :
    assembleByCompletion rs order = rs.map some := by
  unfold assembleByCompletion
  apply List.ext_getElem?
  intro j
  by_cases hj : j < rs.length
  · rw [assemble_get rs order (List.replicate rs.length none) (by simp)
      (fun j' hj' => Or.inl (hcov j' hj')) j hj]
    simp [List.getElem?_eq_getElem hj]
  · rw [List.getElem?_eq_none, List.getElem?_eq_none]
    · simp; omega
    · rw [assemble_len]
      simp; omega

/-- When the AI classifier throws for an item that missed the cache, that
item's result is the errored record, the storage is untouched, and exactly
the one (failed) classifier invocation was made — siblings are unaffected. -/
theorem classifyLink_ai_fault (env : ClassifyEnv) (st : Storage) (l : Link)
    (e : String) (hmode : env.detectionMode = "chrome-ai")
    (hmiss : env.m.getClassification env.B st env.now l.text = .ok none)
    (herr : env.aiFn l.text = .error e) :
    classifyLink env st l = (erroredRecord e, st, 1) := by
  simp [classifyLink, classifyLinkUncached, hmode, hmiss, herr]

/-- **C3.** `classifyMultipleLinks` returns exactly one result per input
link, the result at index `i` being the one `classifyLink` computes for the
input at index `i` (and `Promise.all` places each completion at its own
index regardless of intra-chunk completion order); when the classifier
fails for one cache-missed item, that item's result is the errored
`{isClickbait: false, error: true, errorMessage}` record with the storage
unchanged, so every sibling's result and the batch call itself still
succeed. -/
theorem classifyBatch_index_aligned (env : ClassifyEnv) (st : Storage)
    (links : List Link) :
    (classifyMultipleLinks env st links).1.length = links.length
    ∧ (∀ i : Nat, (classifyMultipleLinks env st links).1[i]? =
        (links[i]?).map fun l =>
          (classifyLink env (runLinks env st (links.take i)).2.1 l).1)
    ∧ (∀ (rs : List Classification) (order : List Nat),
        (∀ j, j < rs.length → j ∈ order) →
        assembleByCompletion rs order = rs.map some)
    ∧ (∀ (st' : Storage) (l : Link) (e : String),
        env.detectionMode = "chrome-ai" →
        env.m.getClassification env.B st' env.now l.text = .ok none →
        env.aiFn l.text = .error e →
        classifyLink env st' l = (erroredRecord e, st', 1)) := by
  refine ⟨?_, ?_, ?_, ?_⟩
  · rw [classifyMultipleLinks_eq_runLinks]
    exact runLinks_length env links st
  · intro i
    rw [classifyMultipleLinks_eq_runLinks]
    exact runLinks_getElem env links st i
  · exact fun rs order h => assemble_eq rs order h
  · exact fun st' l e hmode hmiss herr =>
      classifyLink_ai_fault env st' l e hmode hmiss herr

/-- Witness for C3: a concrete two-item batch whose classifier always
throws; both results exist, the batch returns, each item's record is the
errored one, and a concrete out-of-order completion still assembles
index-aligned. -/
theorem classifyBatch_index_aligned_witness :
    (classifyMultipleLinks aiFailEnv [] [⟨"t1", "h1"⟩, ⟨"t2", "h2"⟩]).1.length = 2
    ∧ assembleByCompletion [plainResult, lowConfidenceCB] [1, 0] =
        [some plainResult, some lowConfidenceCB]
    ∧ classifyLink aiFailEnv [] ⟨"t1", "h1"⟩ = (erroredRecord "boom", [], 1) := by
  have h := classifyBatch_index_aligned aiFailEnv [] [⟨"t1", "h1"⟩, ⟨"t2", "h2"⟩]
  refine ⟨h.1, h.2.2.1 _ [1, 0] (by decide), h.2.2.2 [] ⟨"t1", "h1"⟩ "boom" rfl rfl rfl⟩

/-- **C4.** For every item list and concurrency limit `L > 0` the batch is
partitioned into `⌈n/L⌉` chunks of size at most `L` whose concatenation is
the input; the chunks are processed strictly sequentially (chunk-by-chunk
processing equals the sequential run), never more than `L` classifier
invocations are outstanding; and 7 items with `L = 5` yield exactly the two
sequential chunks of sizes 5 then 2 (`CONCURRENT_LIMIT` is 5). -/
theorem classifyBatch_chunking (α : Type) (L : Nat) (xs : List α) (hL : 0 < L) :
    PERFORMANCE_CONFIG.CONCURRENT_LIMIT = 5
    ∧ (chunksOf L xs).length = (xs.length + L - 1) / L
    ∧ (∀ c ∈ chunksOf L xs, c.length ≤ L)
    ∧ (chunksOf L xs).flatten = xs
    ∧ peakConcurrency L xs ≤ L
    ∧ (∀ (env : ClassifyEnv) (st : Storage) (links : List Link),
        classifyMultipleLinks env st links = runLinks env st links)
    ∧ (xs.length = 7 → L = 5 → (chunksOf L xs).map List.length = [5, 2]) := by
  refine ⟨rfl, chunksOf_length L hL xs, fun c hc => chunksOf_mem_le L xs c hc,
    chunksOf_flatten L hL xs, ?_, fun env st links =>
      classifyMultipleLinks_eq_runLinks env st links, ?_⟩
  · apply foldr_max_le_of_all
    intro a ha
    rcases List.mem_map.mp ha with ⟨c, hc, rfl⟩
    exact chunksOf_mem_le L xs c hc
  · intro h7 h5
    subst h5
    exact chunksOf_seven xs h7

/-- Witness for C4: 7 concrete items at the configured limit 5. -/
theorem classifyBatch_chunking_witness :
    (0 : Nat) < 5
    ∧ (chunksOf 5 (List.range 7)).length = 2
    ∧ (chunksOf 5 (List.range 7)).flatten = List.range 7
    ∧ (chunksOf 5 (List.range 7)).map List.length = [5, 2] := by
  have h := classifyBatch_chunking Nat 5 (List.range 7) (by decide)
  exact ⟨by decide, h.2.1, h.2.2.2.1, h.2.2.2.2.2.2 (by decide) rfl⟩

/-! ### Cache interaction of classifyLink -/

/-- In AI mode, a usable cached record is returned as-is: no classifier
invocation, no storage change. -/
theorem classifyLink_cached_hit (env : ClassifyEnv) (st : Storage) (l : Link)
    (c : Classification) (hmode : env.detectionMode = "chrome-ai")
    (hhit : env.m.getClassification env.B st env.now l.text = .ok (some c)) :
    classifyLink env st l = (c, st, 0) := by
  simp [classifyLink, hhit, hmode]

/-- In AI mode, a cache miss invokes the classifier once, writes the raw
classification, and returns the sensitivity-adjusted record. -/
theorem classifyLink_ai_miss (env : ClassifyEnv) (st st' : Storage) (l : Link)
    (c : Classification) (hmode : env.detectionMode = "chrome-ai")
    (hmiss : env.m.getClassification env.B st env.now l.text = .ok none)
    (hok : env.aiFn l.text = .ok c)
    (hsave : env.m.saveClassification env.B st env.now l.text c = .ok st') :
    classifyLink env st l = (adjustClassification env.sensitivity c, st', 1) := by
  simp [classifyLink, classifyLinkUncached, hmode, hmiss, hok, hsave]

/-- Over the honest store, the cache read never throws. -/
theorem getClassification_honest_ok (m : CacheManager) (st : Storage)
    (now : Nat) (t : String) :
    ∃ o, m.getClassification honestBackend st now t = .ok o := by
  unfold CacheManager.getClassification honestBackend
  simp only [Bind.bind, Except.bind, Pure.pure, Except.pure]
  rcases Storage.getKey st (classificationKey t) with _ | v
  · exact ⟨none, rfl⟩
  · by_cases hv : m.isValid now v
    · rcases v with d | d | d <;> simp [hv]
    · exact ⟨none, by simp [hv]⟩

/-- In regex mode (over the honest store), a cached record — valid or not —
is ignored, the regex collaborator classifies, and nothing is written. -/
theorem classifyLink_regex (env : ClassifyEnv) (st : Storage) (l : Link)
    (hB : env.B = honestBackend) (hmode : env.detectionMode = "regex") :
    classifyLink env st l = (env.regexFn l.text, st, 0) := by
  obtain ⟨o, ho⟩ := getClassification_honest_ok env.m st env.now l.text
  unfold classifyLink
  rw [hB, ho]
  rcases o with _ | c <;> simp [classifyLinkUncached, hmode]

/-- `enforceMaxSize` leaves a store within the bound untouched. -/
theorem enforceMaxSize_small (m : CacheManager) (st : Storage)
    (h : st.length ≤ m.MAX_CACHE_SIZE) :
    m.enforceMaxSize honestBackend st = .ok st := by
  simp [CacheManager.enforceMaxSize, honestBackend, h,
    Bind.bind, Except.bind, Pure.pure, Except.pure]

/-- Saving under a fresh key appends the entry (no eviction while within
the bound). -/
theorem saveClassification_fresh (m : CacheManager) (st : Storage) (now : Nat)
    (t : String) (c : Classification)
    (habs : st.any (fun p => p.1 == classificationKey t) = false)
    (hlen : st.length + 1 ≤ m.MAX_CACHE_SIZE) :
    m.saveClassification honestBackend st now t c =
      .ok (st ++ [(classificationKey t, .classificationEntry c now)]) := by
  have hset : Storage.setKey st (classificationKey t) (.classificationEntry c now) =
      st ++ [(classificationKey t, .classificationEntry c now)] := by
    simp [Storage.setKey, habs]
  have hseteq : honestBackend.set st (classificationKey t)
      (StoredValue.classificationEntry c now) =
      .ok (st ++ [(classificationKey t, StoredValue.classificationEntry c now)]) := by
    show Except.ok (Storage.setKey st (classificationKey t)
      (StoredValue.classificationEntry c now)) = _
    rw [hset]
  have henf := enforceMaxSize_small m
    (st ++ [(classificationKey t, StoredValue.classificationEntry c now)])
    (by simpa using hlen)
  simp only [CacheManager.saveClassification, hseteq, henf]

/-- Reading back the single entry written at `now1`, at a later time within
the TTL, yields the raw stored classification. -/
theorem getClassification_single (m : CacheManager) (c : Classification)
    (now1 now2 : Nat) (t : String) (h1 : now1 ≠ 0)
    (h2 : now2 - now1 < m.CACHE_DURATION) :
    m.getClassification honestBackend
      [(classificationKey t, .classificationEntry c now1)] now2 t = .ok (some c) := by
  simp [CacheManager.getClassification, honestBackend, Storage.getKey,
    CacheManager.isValid, h1, h2, Bind.bind, Except.bind, Pure.pure, Except.pure]

/-- **C5 (counterexample).** The claim fails on the code at a concrete
input, in both detection modes. AI mode: one item `"t"` classified twice
(second batch within the TTL) leaves the classifier invocation count at 1 —
but the two returned results are NOT identical: the first batch returns the
threshold-adjusted record (`isClickbait := false`, confidence 0.3 < 0.5)
while the second returns the raw cached record (`isClickbait := true`).
Regex mode: a valid cached record is not returned (the regex result is),
and a miss writes nothing to the cache. -/
theorem classifyBatch_cache_identical_ce :
    (classifyMultipleLinks (aiOkEnv 1) [] [⟨"t", "h"⟩] =
        ([{ lowConfidenceCB with isClickbait := false }], seededStorage, 1)
      ∧ classifyMultipleLinks (aiOkEnv 2) seededStorage [⟨"t", "h"⟩] =
        ([lowConfidenceCB], seededStorage, 0)
      ∧ ({ lowConfidenceCB with isClickbait := false } : Classification) ≠ lowConfidenceCB)
    ∧ (CacheManager.getClassification honestBackend CacheManager.new
        seededStorage 2 "t" = .ok (some lowConfidenceCB)
      ∧ classifyMultipleLinks (regexEnv 2) seededStorage [⟨"t", "h"⟩] =
        ([plainResult], seededStorage, 0)
      ∧ plainResult ≠ lowConfidenceCB
      ∧ classifyMultipleLinks (regexEnv 1) [] [⟨"t", "h"⟩] = ([plainResult], [], 0)) := by
  have hth : sensThreshold 5 = 1 / 2 := by norm_num [sensThreshold]
  have hle : ¬ (sensThreshold 5 ≤ lowConfidenceCB.confidence) := by
    rw [hth]; norm_num [lowConfidenceCB]
  have hadj : adjustClassification 5 lowConfidenceCB =
      { lowConfidenceCB with isClickbait := false } := by
    simp [adjustClassification, hle]
  have hsave := saveClassification_fresh CacheManager.new [] 1 "t" lowConfidenceCB
    rfl (by norm_num [CacheManager.new])
  have hsave1 : CacheManager.saveClassification (aiOkEnv 1).B (aiOkEnv 1).m
      [] (aiOkEnv 1).now "t" lowConfidenceCB = Except.ok seededStorage := hsave
  have step1 := classifyLink_ai_miss (aiOkEnv 1) [] seededStorage
    ⟨"t", "h"⟩ lowConfidenceCB rfl rfl rfl hsave1
  have hhit := getClassification_single CacheManager.new lowConfidenceCB 1 2 "t"
    (by decide) (by decide)
  have step2 := classifyLink_cached_hit (aiOkEnv 2) seededStorage ⟨"t", "h"⟩
    lowConfidenceCB rfl hhit
  have step3 := classifyLink_regex (regexEnv 2) seededStorage ⟨"t", "h"⟩ rfl rfl
  have step4 := classifyLink_regex (regexEnv 1) [] ⟨"t", "h"⟩ rfl rfl
  refine ⟨⟨?_, ?_, ?_⟩, rfl, ?_, ?_, ?_⟩
  · rw [classifyMultipleLinks_eq_runLinks]
    simp only [runLinks]
    rw [step1]
    simp [hadj, aiOkEnv]
  · rw [classifyMultipleLinks_eq_runLinks]
    simp only [runLinks]
    rw [step2]
  · simp [lowConfidenceCB]
  · rw [classifyMultipleLinks_eq_runLinks]
    simp only [runLinks]
    rw [step3]
    simp [regexEnv]
  · simp [plainResult, lowConfidenceCB]
  · rw [classifyMultipleLinks_eq_runLinks]
    simp only [runLinks]
    rw [step4]
    simp [regexEnv]

/-- **C5 (amended).** For every item, `classifyBatch` consults the
classification cache by the item's key before classifying. In AI detection
mode a valid cached record is returned as-is without invoking the
classifier, and a miss invokes the classifier once and writes the RAW
classification (before the sensitivity adjustment) to the cache; hence
submitting the same text a second time within the TTL window leaves the
classifier invocation count at 1, the second result being the stored raw
classification — which equals the first (threshold-adjusted) result exactly
when the adjustment did not change the `isClickbait` flag. In regex
detection mode the cached record is ignored and nothing is written. -/
theorem classifyBatch_cache_amended :
    (∀ (env : ClassifyEnv) (st : Storage) (l : Link) (c : Classification),
      env.detectionMode = "chrome-ai" →
      env.m.getClassification env.B st env.now l.text = .ok (some c) →
      classifyLink env st l = (c, st, 0))
    ∧ (∀ (env : ClassifyEnv) (st st' : Storage) (l : Link) (c : Classification),
      env.detectionMode = "chrome-ai" →
      env.m.getClassification env.B st env.now l.text = .ok none →
      env.aiFn l.text = .ok c →
      env.m.saveClassification env.B st env.now l.text c = .ok st' →
      classifyLink env st l = (adjustClassification env.sensitivity c, st', 1))
    ∧ (∀ (m : CacheManager) (regexFn : String → Classification)
        (aiFn : String → Except String Classification) (sens : ℚ)
        (t h : String) (c : Classification) (now1 now2 : Nat),
        aiFn t = .ok c → now1 ≠ 0 → now2 - now1 < m.CACHE_DURATION →
        1 ≤ m.MAX_CACHE_SIZE →
        classifyMultipleLinks
            ⟨honestBackend, m, regexFn, aiFn, "chrome-ai", sens, now1⟩ [] [⟨t, h⟩] =
          ([adjustClassification sens c],
            [(classificationKey t, .classificationEntry c now1)], 1)
        ∧ classifyMultipleLinks
            ⟨honestBackend, m, regexFn, aiFn, "chrome-ai", sens, now2⟩
            [(classificationKey t, .classificationEntry c now1)] [⟨t, h⟩] =
          ([c], [(classificationKey t, .classificationEntry c now1)], 0))
    ∧ (∀ (env : ClassifyEnv) (st : Storage) (l : Link),
        env.B = honestBackend → env.detectionMode = "regex" →
        classifyLink env st l = (env.regexFn l.text, st, 0)) := by
  refine ⟨classifyLink_cached_hit, classifyLink_ai_miss, ?_, classifyLink_regex⟩
  intro m regexFn aiFn sens t h c now1 now2 hai h1 h2 hmax
  have hmiss : CacheManager.getClassification honestBackend m [] now1 t = .ok none := rfl
  have hsave := saveClassification_fresh m [] now1 t c rfl (by simpa using hmax)
  have step1 := classifyLink_ai_miss
    ⟨honestBackend, m, regexFn, aiFn, "chrome-ai", sens, now1⟩ []
    ([] ++ [(classificationKey t, .classificationEntry c now1)]) ⟨t, h⟩ c
    rfl hmiss hai hsave
  have hhit := getClassification_single m c now1 now2 t h1 h2
  have step2 := classifyLink_cached_hit
    ⟨honestBackend, m, regexFn, aiFn, "chrome-ai", sens, now2⟩
    [(classificationKey t, .classificationEntry c now1)] ⟨t, h⟩ c rfl hhit
  constructor
  · rw [classifyMultipleLinks_eq_runLinks]
    simp [runLinks, step1]
  · rw [classifyMultipleLinks_eq_runLinks]
    simp [runLinks, step2]

/-- Witness for the amended C5: concrete two-batch run (AI mode, default
sensitivity, low-confidence flagged classification) and a concrete
regex-mode call. -/
theorem classifyBatch_cache_amended_witness :
    (fun _ : String => (Except.ok lowConfidenceCB : Except String Classification)) "t" =
      .ok lowConfidenceCB
    ∧ (1 : Nat) ≠ 0
    ∧ 2 - 1 < CacheManager.new.CACHE_DURATION
    ∧ 1 ≤ CacheManager.new.MAX_CACHE_SIZE
    ∧ classifyMultipleLinks (aiOkEnv 1) [] [⟨"t", "h"⟩] =
        ([adjustClassification 5 lowConfidenceCB],
          [(classificationKey "t", .classificationEntry lowConfidenceCB 1)], 1)
    ∧ classifyMultipleLinks (aiOkEnv 2)
        [(classificationKey "t", .classificationEntry lowConfidenceCB 1)] [⟨"t", "h"⟩] =
        ([lowConfidenceCB],
          [(classificationKey "t", .classificationEntry lowConfidenceCB 1)], 0)
    ∧ classifyLink (regexEnv 2) seededStorage ⟨"t", "h"⟩ =
        ((regexEnv 2).regexFn "t", seededStorage, 0) := by
  have h := classifyBatch_cache_amended
  have hrun := h.2.2.1 CacheManager.new (fun _ => plainResult)
    (fun _ => .ok lowConfidenceCB) 5 "t" "h" lowConfidenceCB 1 2
    rfl (by decide) (by decide) (by decide)
  exact ⟨rfl, by decide, by decide, by decide, hrun.1, hrun.2,
    h.2.2.2 (regexEnv 2) seededStorage ⟨"t", "h"⟩ rfl rfl⟩

/-! ### Sorting and storage-key lemmas for the eviction proofs -/

theorem insertByTs_perm (p : String × StoredValue) :
    ∀ l : Storage, (insertByTs p l).Perm (p :: l) := by
  intro l
  induction l with
  | nil => exact List.Perm.refl _
  | cons q qs ih =>
    unfold insertByTs
    by_cases h : p.2.ts ≤ q.2.ts
    · rw [if_pos h]
    · rw [if_neg h]
      exact (ih.cons q).trans (List.Perm.swap p q qs)

theorem sortByTs_perm : ∀ l : Storage, (sortByTs l).Perm l := by
  intro l
  induction l with
  | nil => exact List.Perm.refl _
  | cons p ps ih =>
    unfold sortByTs
    exact (insertByTs_perm p (sortByTs ps)).trans (ih.cons p)

theorem insertByTs_front (p : String × StoredValue) (l : Storage)
    (h : ∀ q ∈ l, p.2.ts ≤ q.2.ts) : insertByTs p l = p :: l := by
  cases l with
  | nil => rfl
  | cons q qs => exact if_pos (h q (by simp))

theorem sortByTs_sorted_id :
    ∀ l : Storage, l.Pairwise (fun a b => a.2.ts ≤ b.2.ts) → sortByTs l = l := by
  intro l
  induction l with
  | nil => intro _; rfl
  | cons p ps ih =>
    intro h
    rcases List.pairwise_cons.mp h with ⟨hp, hps⟩
    unfold sortByTs
    rw [ih hps]
    exact insertByTs_front p ps hp

theorem setKey_fresh (st : Storage) (k : String) (v : StoredValue)
    (h : k ∉ st.map Prod.fst) : st.setKey k v = st ++ [(k, v)] := by
  have hany : st.any (fun p => p.1 == k) = false := by
    rw [List.any_eq_false]
    intro p hp hbeq
    exact h (List.mem_map.mpr ⟨p, hp, by simpa using hbeq⟩)
  simp [Storage.setKey, hany]

theorem removeKeys_of_not_mem (l : Storage) (k : String)
    (h : k ∉ l.map Prod.fst) : l.removeKeys [k] = l := by
  unfold Storage.removeKeys
  rw [List.filter_eq_self]
  intro p hp
  simp only [List.contains_cons, List.contains_nil, Bool.or_false, Bool.not_eq_true',
    beq_eq_false_iff_ne, ne_eq]
  intro hk
  exact h (List.mem_map.mpr ⟨p, hp, by simp [hk]⟩)

theorem removeKeys_single_length (st : Storage) (k : String) (hWF : st.WF)
    (hmem : k ∈ st.map Prod.fst) :
    (Storage.removeKeys st [k]).length = st.length - 1 := by
  induction st with
  | nil => simp at hmem
  | cons p rest ih =>
    rcases List.nodup_cons.mp hWF with ⟨hp, hrest⟩
    by_cases hk : p.1 = k
    · subst hk
      have h1 : Storage.removeKeys (p :: rest) [p.1] = Storage.removeKeys rest [p.1] := by
        simp [Storage.removeKeys, List.filter_cons]
      rw [h1, removeKeys_of_not_mem rest p.1 hp]
      simp
    · have hmem2 : k ∈ rest.map Prod.fst := by
        rcases List.mem_map.mp hmem with ⟨q, hq, hqk⟩
        rcases List.mem_cons.mp hq with rfl | hq2
        · exact absurd hqk hk
        · exact List.mem_map.mpr ⟨q, hq2, hqk⟩
      have hlen : 1 ≤ rest.length := by
        rcases rest with _ | _
        · simp at hmem2
        · simp
      have h1 : Storage.removeKeys (p :: rest) [k] = p :: Storage.removeKeys rest [k] := by
        simp [Storage.removeKeys, List.filter_cons, hk]
      rw [h1]
      simp only [List.length_cons]
      rw [ih hrest hmem2]
      omega

theorem removeKeys_WF (st : Storage) (ks : List String) (hWF : st.WF) :
    (st.removeKeys ks).WF :=
  ((List.filter_sublist st).map Prod.fst).nodup hWF

theorem setKey_length_le (st : Storage) (k : String) (v : StoredValue) :
    (st.setKey k v).length ≤ st.length + 1 := by
  unfold Storage.setKey
  by_cases h : st.any (fun p => p.1 == k)
  · simp [h]
  · simp [h]

theorem setKey_WF (st : Storage) (k : String) (v : StoredValue) (hWF : st.WF) :
    (st.setKey k v).WF := by
  unfold Storage.setKey
  by_cases h : st.any (fun p => p.1 == k) = true
  · rw [if_pos h]
    have hkeys : ((st.map fun p => if p.1 == k then (k, v) else p).map Prod.fst) =
        st.map Prod.fst := by
      rw [List.map_map]
      apply List.map_congr_left
      intro p _
      by_cases hpk : p.1 = k
      · subst hpk; simp
      · simp [hpk]
    unfold Storage.WF
    rw [hkeys]
    exact hWF
  · rw [if_neg h]
    unfold Storage.WF
    rw [List.map_append]
    apply List.Nodup.append hWF (by simp)
    intro a ha hb
    simp at hb
    subst hb
    apply h
    rw [List.any_eq_true]
    rcases List.mem_map.mp ha with ⟨p, hp, hpk⟩
    exact ⟨p, hp, by simp [hpk]⟩

/-- `any (· == k)` is false on a store not holding key `k`. -/
theorem any_key_eq_false (st : Storage) (k : String) (h : k ∉ st.map Prod.fst) :
    st.any (fun p => p.1 == k) = false := by
  rw [List.any_eq_false]
  intro p hp hbeq
  exact h (List.mem_map.mpr ⟨p, hp, by simpa using hbeq⟩)

/-- An over-full well-formed store is cut back to exactly the bound, by
removing present keys. -/
theorem enforceMaxSize_over (m : CacheManager) (st : Storage) (hWF : st.WF)
    (hlen : st.length = m.MAX_CACHE_SIZE + 1) :
    ∃ st', m.enforceMaxSize honestBackend st = .ok st' ∧ st'.WF ∧
      st'.length = m.MAX_CACHE_SIZE := by
  have hnle : ¬ (st.length ≤ m.MAX_CACHE_SIZE) := by omega
  have hov : st.length - m.MAX_CACHE_SIZE = 1 := by omega
  obtain ⟨q, qs, hq⟩ : ∃ q qs, sortByTs st = q :: qs := by
    rcases hsp : sortByTs st with _ | ⟨q, qs⟩
    · have hpl := (sortByTs_perm st).length_eq
      rw [hsp] at hpl
      simp at hpl
      omega
    · exact ⟨q, qs, rfl⟩
  have hqmem : q.1 ∈ st.map Prod.fst := by
    have hqin : q ∈ st := (sortByTs_perm st).mem_iff.mp (by rw [hq]; simp)
    exact List.mem_map.mpr ⟨q, hqin, rfl⟩
  refine ⟨Storage.removeKeys st [q.1], ?_, removeKeys_WF st _ hWF, ?_⟩
  · simp only [CacheManager.enforceMaxSize, honestBackend, Bind.bind, Except.bind,
      Pure.pure, Except.pure]
    rw [if_neg hnle, hov, hq]
    simp
  · rw [removeKeys_single_length st q.1 hWF hqmem, hlen]
    omega

/-- One `saveClassification` call from a well-formed store within the bound
lands back within the bound. -/
theorem saveClassification_invariant (m : CacheManager) (st : Storage) (now : Nat)
    (t : String) (c : Classification) (hWF : st.WF)
    (hlen : st.length ≤ m.MAX_CACHE_SIZE) :
    ∃ st', m.saveClassification honestBackend st now t c = .ok st' ∧ st'.WF ∧
      st'.length ≤ m.MAX_CACHE_SIZE := by
  set st1 := st.setKey (classificationKey t) (.classificationEntry c now) with hst1
  have hWF1 : st1.WF := setKey_WF st _ _ hWF
  have hlen1 : st1.length ≤ st.length + 1 := setKey_length_le st _ _
  have hseteq : honestBackend.set st (classificationKey t)
      (StoredValue.classificationEntry c now) = .ok st1 := by
    rw [hst1]; rfl
  by_cases hsmall : st1.length ≤ m.MAX_CACHE_SIZE
  · refine ⟨st1, ?_, hWF1, hsmall⟩
    simp only [CacheManager.saveClassification, hseteq,
      enforceMaxSize_small m st1 hsmall]
  · have hexact : st1.length = m.MAX_CACHE_SIZE + 1 := by omega
    obtain ⟨st2, henf, hWF2, hlen2⟩ := enforceMaxSize_over m st1 hWF1 hexact
    refine ⟨st2, ?_, hWF2, by omega⟩
    simp only [CacheManager.saveClassification, hseteq, henf]

/-- Every sequence of `saveClassification` calls keeps a well-formed store
within the configured bound. -/
theorem applyWrites_invariant (m : CacheManager) :
    ∀ (ws : List SaveOp) (st : Storage), st.WF → st.length ≤ m.MAX_CACHE_SIZE →
      ∃ st', applyWrites m st ws = .ok st' ∧ st'.WF ∧
        st'.length ≤ m.MAX_CACHE_SIZE := by
  intro ws
  induction ws with
  | nil => intro st h1 h2; exact ⟨st, rfl, h1, h2⟩
  | cons w ws ih =>
    intro st h1 h2
    obtain ⟨st1, hsave, hWF1, hlen1⟩ :=
      saveClassification_invariant m st w.time w.text w.data h1 h2
    obtain ⟨st2, happ, hWF2, hlen2⟩ := ih st1 hWF1 hlen1
    exact ⟨st2, by simp [applyWrites, hsave, happ], hWF2, hlen2⟩

theorem applyWrites_append (m : CacheManager) :
    ∀ (as bs : List SaveOp) (st : Storage),
      applyWrites m st (as ++ bs) =
        match applyWrites m st as with
        | .error e => .error e
        | .ok st' => applyWrites m st' bs := by
  intro as
  induction as with
  | nil => intro bs st; rfl
  | cons a as ih =>
    intro bs st
    simp only [List.cons_append, applyWrites]
    cases m.saveClassification honestBackend st a.time a.text a.data with
    | error e => rfl
    | ok st1 => exact ih bs st1

/-- Fresh-key writes below the bound append in write order. -/
theorem applyWrites_fresh (m : CacheManager) :
    ∀ (ws done : List SaveOp),
      ((done ++ ws).map fun w => classificationKey w.text).Nodup →
      (done ++ ws).length ≤ m.MAX_CACHE_SIZE →
      applyWrites m (entriesOfWrites done) ws = .ok (entriesOfWrites (done ++ ws)) := by
  intro ws
  induction ws with
  | nil => intro done h1 h2; simp [applyWrites]
  | cons w ws ih =>
    intro done h1 h2
    have hkeys : (entriesOfWrites done).map Prod.fst =
        done.map fun w => classificationKey w.text := by
      simp [entriesOfWrites]
    have hnodup := h1
    rw [List.map_append] at hnodup
    have hdisj := List.disjoint_of_nodup_append hnodup
    have hfresh : classificationKey w.text ∉ (entriesOfWrites done).map Prod.fst := by
      rw [hkeys]
      intro hmem
      exact hdisj hmem (by simp)
    have hsave := saveClassification_fresh m (entriesOfWrites done) w.time w.text w.data
      (any_key_eq_false _ _ hfresh)
      (by simp only [entriesOfWrites, List.length_map]
          have := h2
          simp only [List.length_append, List.length_cons] at this
          omega)
    have hstep : entriesOfWrites done ++
        [(classificationKey w.text, .classificationEntry w.data w.time)] =
        entriesOfWrites (done ++ [w]) := by
      simp [entriesOfWrites]
    have hih := ih (done ++ [w])
      (by rw [List.append_assoc]; simpa using h1)
      (by rw [List.append_assoc]; simpa using h2)
    simp only [applyWrites, hsave, hstep]
    rw [hih]
    rw [List.append_assoc]
    simp

/-- `enforceMaxSize` on a store one over the bound whose entries are already
in ascending-timestamp order evicts exactly the first (oldest) entry. -/
theorem enforceMaxSize_overflow_one (m : CacheManager) (e0 : String × StoredValue)
    (rest : Storage) (hlen : (e0 :: rest).length = m.MAX_CACHE_SIZE + 1)
    (hsorted : sortByTs (e0 :: rest) = e0 :: rest)
    (hk : e0.1 ∉ rest.map Prod.fst) :
    m.enforceMaxSize honestBackend (e0 :: rest) = .ok rest := by
  have hnle : ¬ ((e0 :: rest).length ≤ m.MAX_CACHE_SIZE) := by
    rw [hlen]; omega
  have hov : (e0 :: rest).length - m.MAX_CACHE_SIZE = 1 := by rw [hlen]; omega
  have hrem : Storage.removeKeys (e0 :: rest) [e0.1] = rest := by
    have hcons : Storage.removeKeys (e0 :: rest) [e0.1] =
        Storage.removeKeys rest [e0.1] := by
      simp [Storage.removeKeys, List.filter_cons]
    rw [hcons, removeKeys_of_not_mem rest e0.1 hk]
  simp only [CacheManager.enforceMaxSize, honestBackend, Bind.bind, Except.bind,
    Pure.pure, Except.pure]
  rw [if_neg hnle, hov, hsorted]
  simp [hrem]

/-- A fresh-key write into a store already at the bound, whose entries
(including the new one) are in ascending-timestamp order, evicts exactly
the first (oldest) entry. -/
theorem saveClassification_overflow (m : CacheManager) (st : Storage) (now : Nat)
    (t : String) (c : Classification)
    (hWF : (st ++ [(classificationKey t, StoredValue.classificationEntry c now)]).WF)
    (hlen : st.length = m.MAX_CACHE_SIZE)
    (hsorted : sortByTs (st ++ [(classificationKey t, StoredValue.classificationEntry c now)]) =
      st ++ [(classificationKey t, StoredValue.classificationEntry c now)]) :
    m.saveClassification honestBackend st now t c =
      .ok ((st ++ [(classificationKey t, StoredValue.classificationEntry c now)]).drop 1) := by
  have hfresh : classificationKey t ∉ st.map Prod.fst := by
    intro hmem
    have hn := hWF
    unfold Storage.WF at hn
    rw [List.map_append] at hn
    exact (List.disjoint_of_nodup_append hn) hmem (by simp)
  have hset := setKey_fresh st (classificationKey t)
    (.classificationEntry c now) hfresh
  rcases hfull : st ++ [(classificationKey t, StoredValue.classificationEntry c now)]
    with _ | ⟨e0, rest⟩
  · exact absurd hfull (by simp)
  · have hWF2 := hWF
    rw [hfull] at hWF2
    unfold Storage.WF at hWF2
    rw [List.map_cons] at hWF2
    have hk : e0.1 ∉ rest.map Prod.fst := (List.nodup_cons.mp hWF2).1
    have hlen2 : (e0 :: rest).length = m.MAX_CACHE_SIZE + 1 := by
      rw [← hfull]
      simp [hlen]
    have hsorted2 : sortByTs (e0 :: rest) = e0 :: rest := by
      rw [← hfull]
      exact hsorted
    have henf := enforceMaxSize_overflow_one m e0 rest hlen2 hsorted2 hk
    have hseteq : honestBackend.set st (classificationKey t)
        (StoredValue.classificationEntry c now) = .ok (e0 :: rest) := by
      show Except.ok (st.setKey (classificationKey t)
        (StoredValue.classificationEntry c now)) = _
      rw [hset, hfull]
    simp only [CacheManager.saveClassification, hseteq, henf, hfull]
    simp

/-- After `MAX_CACHE_SIZE + 1` distinct-key writes with strictly increasing
timestamps from an empty store, exactly the first (oldest) write's entry
has been evicted. -/
theorem applyWrites_evicts_oldest (m : CacheManager) (ws : List SaveOp)
    (hnodup : (ws.map fun w => classificationKey w.text).Nodup)
    (hmono : ws.Pairwise (fun a b => a.time < b.time))
    (hlen : ws.length = m.MAX_CACHE_SIZE + 1) :
    applyWrites m [] ws = .ok (entriesOfWrites (ws.drop 1)) := by
  have hne : ws ≠ [] := by
    intro h
    rw [h] at hlen
    simp at hlen
  obtain ⟨init, w, hsplit⟩ : ∃ init w, ws = init ++ [w] :=
    ⟨ws.dropLast, ws.getLast hne, (List.dropLast_append_getLast hne).symm⟩
  have hinitlen : init.length = m.MAX_CACHE_SIZE := by
    rw [hsplit] at hlen
    simp at hlen
    omega
  have h1 := applyWrites_fresh m init []
    (by rw [List.nil_append]
        rw [hsplit, List.map_append] at hnodup
        exact hnodup.of_append_left)
    (by simp [hinitlen])
  rw [hsplit, applyWrites_append m init [w] []]
  rw [show applyWrites m ([] : Storage) init =
      applyWrites m (entriesOfWrites []) init from rfl, h1]
  simp only [List.nil_append]
  -- the final, overflowing write
  have hfull : entriesOfWrites init ++
      [(classificationKey w.text, StoredValue.classificationEntry w.data w.time)] =
      entriesOfWrites (init ++ [w]) := by
    simp [entriesOfWrites]
  have hkeys : ∀ vs : List SaveOp, (entriesOfWrites vs).map Prod.fst =
      vs.map fun v => classificationKey v.text := by
    intro vs
    simp [entriesOfWrites]
  have hWFfull : (entriesOfWrites init ++
      [(classificationKey w.text, StoredValue.classificationEntry w.data w.time)]).WF := by
    rw [hfull]
    unfold Storage.WF
    rw [hkeys (init ++ [w]), ← hsplit]
    exact hnodup
  have hPW : (entriesOfWrites (init ++ [w])).Pairwise
      (fun a b => a.2.ts ≤ b.2.ts) := by
    unfold entriesOfWrites
    rw [List.pairwise_map]
    rw [hsplit] at hmono
    exact hmono.imp fun h => le_of_lt h
  have hsorted : sortByTs (entriesOfWrites init ++
      [(classificationKey w.text, StoredValue.classificationEntry w.data w.time)]) =
      entriesOfWrites init ++
      [(classificationKey w.text, StoredValue.classificationEntry w.data w.time)] := by
    rw [hfull]
    exact sortByTs_sorted_id _ hPW
  have hsave := saveClassification_overflow m (entriesOfWrites init) w.time w.text w.data
    hWFfull (by simp [entriesOfWrites, hinitlen]) hsorted
  simp only [applyWrites, hsave]
  rw [hfull]
  have hdropmap : (entriesOfWrites (init ++ [w])).drop 1 =
      entriesOfWrites ((init ++ [w]).drop 1) := by
    unfold entriesOfWrites
    simp [List.map_drop]
  rw [hdropmap]

/-- **C6.** After every sequence of save operations the cache store holds
at most the configured maximum number of entries (`MAX_CACHE_SIZE`, 1000 as
constructed); and after `MAX_CACHE_SIZE + 1` distinct-key writes with
increasing timestamps from an empty store, exactly the entry with the
oldest `writtenAt` timestamp has been evicted — reads never update
timestamps, so recency of reads is irrelevant — and the size stabilizes at
the maximum. -/
theorem cacheStore_size_bound (m : CacheManager) (ws : List SaveOp) :
    CacheManager.new.MAX_CACHE_SIZE = 1000
    ∧ (∃ st', applyWrites m [] ws = .ok st' ∧ st'.length ≤ m.MAX_CACHE_SIZE)
    ∧ ((ws.map fun w => classificationKey w.text).Nodup →
       ws.Pairwise (fun a b => a.time < b.time) →
       ws.length = m.MAX_CACHE_SIZE + 1 →
       applyWrites m [] ws = .ok (entriesOfWrites (ws.drop 1))
         ∧ (entriesOfWrites (ws.drop 1)).length = m.MAX_CACHE_SIZE) := by
  refine ⟨rfl, ?_, ?_⟩
  · obtain ⟨st', h, _, hlen⟩ :=
      applyWrites_invariant m ws [] (by simp [Storage.WF]) (by simp)
    exact ⟨st', h, hlen⟩
  · intro h1 h2 h3
    refine ⟨applyWrites_evicts_oldest m ws h1 h2 h3, ?_⟩
    simp only [entriesOfWrites, List.length_map, List.length_drop, h3]
    omega

/-- Witness for C6: a small bound (2) and three concrete distinct-key
writes; the oldest entry is evicted and the size stabilizes at the bound. -/
theorem cacheStore_size_bound_witness :
    (([⟨"a", plainResult, 1⟩, ⟨"b", plainResult, 2⟩, ⟨"c", plainResult, 3⟩] :
        List SaveOp).map fun w => classificationKey w.text).Nodup
    ∧ ([⟨"a", plainResult, 1⟩, ⟨"b", plainResult, 2⟩, ⟨"c", plainResult, 3⟩] :
        List SaveOp).Pairwise (fun a b => a.time < b.time)
    ∧ applyWrites { MAX_CACHE_SIZE := 2 } []
        [⟨"a", plainResult, 1⟩, ⟨"b", plainResult, 2⟩, ⟨"c", plainResult, 3⟩] =
        .ok (entriesOfWrites [⟨"b", plainResult, 2⟩, ⟨"c", plainResult, 3⟩])
    ∧ (entriesOfWrites [⟨"b", plainResult, 2⟩, ⟨"c", plainResult, 3⟩]).length = 2 := by
  have h := cacheStore_size_bound { MAX_CACHE_SIZE := 2 }
    [⟨"a", plainResult, 1⟩, ⟨"b", plainResult, 2⟩, ⟨"c", plainResult, 3⟩]
  have hnodup : (([⟨"a", plainResult, 1⟩, ⟨"b", plainResult, 2⟩,
      ⟨"c", plainResult, 3⟩] : List SaveOp).map
        fun w => classificationKey w.text).Nodup := by decide
  have hmono : ([⟨"a", plainResult, 1⟩, ⟨"b", plainResult, 2⟩,
      ⟨"c", plainResult, 3⟩] : List SaveOp).Pairwise
        (fun a b => a.time < b.time) := by decide
  obtain ⟨hrun, hlen⟩ := h.2.2 hnodup hmono rfl
  exact ⟨hnodup, hmono, hrun, hlen⟩

/-- `runEvents` over an appended trace. -/
theorem runEvents_append (s : ServiceState) (as bs : List GuardedEvent) :
    runEvents s (as ++ bs) = runEvents (runEvents s as) bs :=
  List.foldl_append ..

/-- **C7 (counterexample).** With two overlapping guarded operations, the
completion of the first stops the keepalive timer while the second is still
outstanding: after `[opStart, opStart, opDone]` one operation is in flight
but the timer is off — the timer is not reference-counted, refuting
"active iff at least one operation is outstanding" and "stopped only when
the last outstanding operation completes". -/
theorem keepalive_refcount_ce :
    (runEvents ServiceState.init [.opStart, .opStart, .opDone]).outstanding = 1
    ∧ (runEvents ServiceState.init [.opStart, .opStart, .opDone]).keepaliveActive = false :=
  ⟨rfl, rfl⟩

/-- **C7 (amended).** `startKeepalive` and `stopKeepalive` are idempotent,
but the timer is a single boolean, not a reference count: every guarded
operation's completion stops it unconditionally. Consequently (i) an active
timer implies at least one outstanding operation, (ii) when no operation is
outstanding the timer is off (no timer is leaked), and (iii) for
non-overlapping operations the timer is active exactly while an operation
is outstanding — but an overlapping completion stops it while siblings are
still outstanding (see the counterexample). -/
theorem keepalive_amended :
    (∀ s : ServiceState, startKeepalive (startKeepalive s) = startKeepalive s)
    ∧ (∀ s : ServiceState, stopKeepalive (stopKeepalive s) = stopKeepalive s)
    ∧ (∀ (es : List GuardedEvent) (s : ServiceState),
        (s.keepaliveActive = true → 1 ≤ s.outstanding) →
        ((runEvents s es).keepaliveActive = true → 1 ≤ (runEvents s es).outstanding))
    ∧ (∀ (es : List GuardedEvent) (s : ServiceState),
        (s.keepaliveActive = true → 1 ≤ s.outstanding) →
        (runEvents s es).outstanding = 0 → (runEvents s es).keepaliveActive = false)
    ∧ (∀ n : Nat,
        runEvents ServiceState.init
          (List.flatten (List.replicate n [.opStart, .opDone])) = ServiceState.init
        ∧ runEvents ServiceState.init
            (List.flatten (List.replicate n [.opStart, .opDone]) ++ [.opStart]) =
          { keepaliveActive := true, outstanding := 1 }) := by
  have hinv : ∀ (es : List GuardedEvent) (s : ServiceState),
      (s.keepaliveActive = true → 1 ≤ s.outstanding) →
      ((runEvents s es).keepaliveActive = true → 1 ≤ (runEvents s es).outstanding) := by
    intro es
    induction es with
    | nil => intro s h; exact h
    | cons e rest ih =>
      intro s h
      cases e with
      | opStart =>
        exact ih _ (fun _ => by simp [serviceStep])
      | opDone =>
        refine ih _ ?_
        intro hact
        have hstop : (stopKeepalive s).keepaliveActive = false := by
          by_cases hs : s.keepaliveActive <;> simp [stopKeepalive, hs]
        simp [serviceStep, hstop] at hact
  have hseq : ∀ n : Nat,
      runEvents ServiceState.init
        (List.flatten (List.replicate n [GuardedEvent.opStart, GuardedEvent.opDone])) =
        ServiceState.init := by
    intro n
    induction n with
    | zero => rfl
    | succ k ih =>
      rw [List.replicate_succ, List.flatten_cons, runEvents_append]
      exact ih
  refine ⟨?_, ?_, hinv, ?_, ?_⟩
  · intro s
    by_cases h : s.keepaliveActive <;> simp [startKeepalive, h]
  · intro s
    by_cases h : s.keepaliveActive <;> simp [stopKeepalive, h]
  · intro es s h h0
    rcases hb : (runEvents s es).keepaliveActive with _ | _
    · rfl
    · have := hinv es s h hb
      omega
  · intro n
    refine ⟨hseq n, ?_⟩
    rw [runEvents_append, hseq n]
    rfl

/-- Witness for the amended C7: idempotence, the invariant, and one full
non-overlapping window at concrete states. -/
theorem keepalive_amended_witness :
    startKeepalive (startKeepalive ServiceState.init) = startKeepalive ServiceState.init
    ∧ (ServiceState.init.keepaliveActive = true → 1 ≤ ServiceState.init.outstanding)
    ∧ ((runEvents ServiceState.init [.opStart, .opDone]).keepaliveActive = true →
        1 ≤ (runEvents ServiceState.init [.opStart, .opDone]).outstanding)
    ∧ runEvents ServiceState.init
        (List.flatten (List.replicate 1 [.opStart, .opDone])) = ServiceState.init := by
  have h := keepalive_amended
  exact ⟨h.1 ServiceState.init, by decide,
    h.2.2.1 [.opStart, .opDone] ServiceState.init (by decide), (h.2.2.2.2 1).1⟩

/-- **C8 (counterexample).** The cache operations contain no exception
handling: when the backing store rejects, every one of `getClassification`,
`saveClassification`, `getSummary`, `saveSummary` throws (propagates the
rejection) instead of degrading to a cache miss. -/
theorem cacheOps_never_throw_ce :
    CacheManager.getClassification (faultyBackend "storage fault")
      CacheManager.new [] 0 "t" = .error "storage fault"
    ∧ CacheManager.saveClassification (faultyBackend "storage fault")
        CacheManager.new [] 0 "t" plainResult = .error ("storage fault", [])
    ∧ CacheManager.getSummary (faultyBackend "storage fault")
        CacheManager.new [] 0 "u" = .error "storage fault"
    ∧ CacheManager.saveSummary (faultyBackend "storage fault")
        CacheManager.new [] 0 "u" "s" = .error ("storage fault", []) :=
  ⟨rfl, rfl, rfl, rfl⟩

/-- **C8 (amended).** Cache reads and writes propagate backing-storage
faults to their callers (no internal catch); the degradation happens in the
callers instead, and not to cache-miss behaviour: `classifyLink` records
the fault as that item's errored result — without invoking the classifier
(0 invocations) — and `getSummaryForUrl` returns the
`'Unable to generate summary.'` string, leaving the storage untouched. -/
theorem cacheOps_fault_amended :
    (∀ (e : String) (m : CacheManager) (st : Storage) (now : Nat) (t : String),
      m.getClassification (faultyBackend e) st now t = .error e)
    ∧ (∀ (e : String) (m : CacheManager) (st : Storage) (now : Nat) (url : String),
      m.getSummary (faultyBackend e) st now url = .error e)
    ∧ (∀ (env : ClassifyEnv) (st : Storage) (l : Link) (e : String),
      env.m.getClassification env.B st env.now l.text = .error e →
      classifyLink env st l = (erroredRecord e, st, 0))
    ∧ (∀ (e : String) (m : CacheManager)
        (fetch summ : String → Except String String) (now : Nat) (st : Storage)
        (url : String),
      getSummaryForUrl (faultyBackend e) m fetch summ now st url =
        (unableSummaryMsg e, st, 0)) := by
  refine ⟨fun _ _ _ _ _ => rfl, fun _ _ _ _ _ => rfl, ?_, fun _ _ _ _ _ _ _ => rfl⟩
  intro env st l e h
  simp [classifyLink, h]

/-- Witness for the amended C8: a concretely faulting store. -/
theorem cacheOps_fault_amended_witness :
    CacheManager.getClassification (faultyBackend "boom") CacheManager.new [] 1 "t" =
      .error "boom"
    ∧ (CacheManager.getClassification (faultyBackend "boom") CacheManager.new [] 1 "t" =
        .error "boom" →
      classifyLink { aiFailEnv with B := faultyBackend "boom" } [] ⟨"t", "h"⟩ =
        (erroredRecord "boom", [], 0))
    ∧ classifyLink { aiFailEnv with B := faultyBackend "boom" } [] ⟨"t", "h"⟩ =
        (erroredRecord "boom", [], 0)
    ∧ getSummaryForUrl (faultyBackend "boom") CacheManager.new
        (fun _ => .ok "article") (fun _ => .ok "summary") 1 [] "u" =
        (unableSummaryMsg "boom", [], 0) := by
  have h := cacheOps_fault_amended
  refine ⟨h.1 "boom" CacheManager.new [] 1 "t", ?_, ?_, h.2.2.2 "boom" CacheManager.new _ _ 1 [] "u"⟩
  · intro _
    exact h.2.2.1 { aiFailEnv with B := faultyBackend "boom" } [] ⟨"t", "h"⟩ "boom" rfl
  · exact h.2.2.1 { aiFailEnv with B := faultyBackend "boom" } [] ⟨"t", "h"⟩ "boom" rfl

/-- Removing exactly the keys of the cache-typed entries filters out
exactly the cache-typed entries (on a store without duplicate keys). -/
theorem removeKeys_filter (st : Storage) (hWF : st.WF) :
    Storage.removeKeys st ((st.filter fun p => isCacheTyped p.2).map Prod.fst) =
      st.filter fun p => !(isCacheTyped p.2) := by
  induction st with
  | nil => rfl
  | cons p rest ih =>
    rcases List.nodup_cons.mp hWF with ⟨hp, hrest⟩
    have hsub : ∀ k ∈ (rest.filter fun q => isCacheTyped q.2).map Prod.fst,
        k ∈ rest.map Prod.fst := by
      intro k hk
      rcases List.mem_map.mp hk with ⟨q, hq, rfl⟩
      exact List.mem_map.mpr ⟨q, List.mem_of_mem_filter hq, rfl⟩
    by_cases hc : isCacheTyped p.2
    · simp only [List.filter_cons, hc, if_pos, List.map_cons]
      show Storage.removeKeys (p :: rest)
          (p.1 :: (rest.filter fun q => isCacheTyped q.2).map Prod.fst) = _
      unfold Storage.removeKeys
      rw [List.filter_cons]
      have hhead : (!((p.1 :: (rest.filter fun q => isCacheTyped q.2).map
          Prod.fst).contains p.1)) = false := by simp
      rw [hhead]
      simp only [Bool.false_eq_true, if_neg, Bool.not_eq_true]
      have hcong : ∀ q ∈ rest,
          (!((p.1 :: (rest.filter fun r => isCacheTyped r.2).map Prod.fst).contains q.1)) =
          (!(((rest.filter fun r => isCacheTyped r.2).map Prod.fst).contains q.1)) := by
        intro q hq
        have hne : q.1 ≠ p.1 := by
          intro he
          exact hp (he ▸ List.mem_map.mpr ⟨q, hq, rfl⟩)
        simp [List.contains_cons, hne]
      rw [List.filter_congr hcong]
      exact ih hrest
    · simp only [List.filter_cons, hc]
      show Storage.removeKeys (p :: rest)
          ((rest.filter fun q => isCacheTyped q.2).map Prod.fst) =
        p :: rest.filter fun q => !(isCacheTyped q.2)
      unfold Storage.removeKeys
      rw [List.filter_cons]
      have hnotmem : p.1 ∉ (rest.filter fun q => isCacheTyped q.2).map Prod.fst :=
        fun hmem => hp (hsub p.1 hmem)
      have hhead : (!(((rest.filter fun q => isCacheTyped q.2).map
          Prod.fst).contains p.1)) = true := by simpa using hnotmem
      rw [hhead, if_pos rfl]
      show p :: Storage.removeKeys rest
          ((rest.filter fun q => isCacheTyped q.2).map Prod.fst) = _
      rw [ih hrest]

/-- **C9.** `clearAll` removes from the backing store exactly the entries
whose `type` is `'classification'` or `'summary'`, leaves every other
stored key/value pair (settings and the like) unchanged, and returns
`{success: true, cleared: n}` with `n` the number of removed entries. -/
theorem clearAll_exact (st : Storage) (hWF : st.WF) :
    CacheManager.clearAll honestBackend st =
      .ok (st.filter fun p => !(isCacheTyped p.2),
        { success := true, cleared := (st.filter fun p => isCacheTyped p.2).length }) := by
  by_cases hz : ((st.filter fun p => isCacheTyped p.2).map Prod.fst).length = 0
  · have hnil : st.filter (fun p => isCacheTyped p.2) = [] := by
      rwa [List.length_map, List.length_eq_zero] at hz
    have hall := List.filter_eq_nil_iff.mp hnil
    have hself : st.filter (fun p => !(isCacheTyped p.2)) = st :=
      List.filter_eq_self.mpr (by intro p hp; simpa using hall p hp)
    simp [CacheManager.clearAll, honestBackend, Bind.bind, Except.bind,
      Pure.pure, Except.pure, hz, hnil, hself]
  · have hremove := removeKeys_filter st hWF
    simp [CacheManager.clearAll, honestBackend, Bind.bind, Except.bind,
      Pure.pure, Except.pure, hz, hremove, List.length_map]
    intro hall
    exact (List.filter_eq_self.mpr (by intro p hp; simp [hall p.1 p.2 hp])).symm

/-- Witness for C9: a concrete store holding a classification entry, a
settings value, and a summary entry — both cache entries go, the settings
value stays, `cleared` counts 2. -/
theorem clearAll_exact_witness :
    mixedStorage.WF
    ∧ CacheManager.clearAll honestBackend mixedStorage =
        .ok ([("settings", .rawValue "cfg")], { success := true, cleared := 2 }) := by
  have hWF : mixedStorage.WF := by
    show (mixedStorage.map Prod.fst).Nodup
    decide
  exact ⟨hWF, clearAll_exact mixedStorage hWF⟩

/-- **C10 (counterexample).** The claim's re-attempt clause fails: when the
cache write's `chrome.storage.local.set` resolves but `enforceMaxSize`
then rejects (here: a backend whose `getAll` faults), the `catch` in
`getSummaryForUrl` does not undo the already-performed `set` — the
freshly computed summary stays in the cache. The first request returns
`'Unable to generate summary. quota exceeded'` yet leaves the summary
entry written, and a later request for the same URL returns that cached
summary with **zero** fetches instead of re-attempting the fetch and
summarization. -/
theorem getSummaryForUrl_reattempt_ce :
    getSummaryForUrl (enforceFaultBackend "quota exceeded") CacheManager.new
        (fun _ => .ok "article") (fun _ => .ok "the summary") 1 [] "u" =
      (unableSummaryMsg "quota exceeded",
        [(summaryKey "u", StoredValue.summaryEntry "the summary" 1 "u")], 1)
    ∧ getSummaryForUrl (enforceFaultBackend "quota exceeded") CacheManager.new
        (fun _ => .ok "article") (fun _ => .ok "the summary") 2
        [(summaryKey "u", StoredValue.summaryEntry "the summary" 1 "u")] "u" =
      ("the summary",
        [(summaryKey "u", StoredValue.summaryEntry "the summary" 1 "u")], 0) :=
  ⟨rfl, rfl⟩

/-- **C10 (amended).** `getSummaryForUrl` never throws and never produces
an error-shaped (`{error: true}`) response: its result is always a plain
string — a valid cached summary, a freshly computed summary, or, on any
internal failure (cache read, article fetch, summarization, or cache
write), the ordinary string `'Unable to generate summary. ' + message` —
and the error string itself is never written to the summary cache. A
failure before the cache write (cache read, fetch, summarization) leaves
the storage unchanged, so a later request for the same URL re-attempts
the fetch and summarization (one fetch per attempt). A cache-write
failure, however, is raised after `chrome.storage.local.set` may already
have resolved, and the catch does not undo it: the freshly computed
summary can remain cached, in which case a later request returns it with
zero fetches instead of re-attempting. -/
theorem getSummaryForUrl_error_policy :
    (∀ (B : StorageBackend) (m : CacheManager)
        (fetch summ : String → Except String String) (now : Nat) (st : Storage)
        (url cached : String),
      m.getSummary B st now url = .ok (some cached) →
      getSummaryForUrl B m fetch summ now st url = (cached, st, 0))
    ∧ (∀ B m (fetch summ : String → Except String String) now st url e,
      m.getSummary B st now url = .ok none → fetch url = .error e →
      getSummaryForUrl B m fetch summ now st url = (unableSummaryMsg e, st, 1))
    ∧ (∀ B m (fetch summ : String → Except String String) now st url a e,
      m.getSummary B st now url = .ok none → fetch url = .ok a → summ a = .error e →
      getSummaryForUrl B m fetch summ now st url = (unableSummaryMsg e, st, 1))
    ∧ (∀ B m (fetch summ : String → Except String String) now st url a sres e stf,
      m.getSummary B st now url = .ok none → fetch url = .ok a → summ a = .ok sres →
      m.saveSummary B st now url sres = .error (e, stf) →
      getSummaryForUrl B m fetch summ now st url = (unableSummaryMsg e, stf, 1))
    ∧ (∀ B m (fetch summ : String → Except String String) now st url e,
      m.getSummary B st now url = .error e →
      getSummaryForUrl B m fetch summ now st url = (unableSummaryMsg e, st, 0))
    ∧ (∀ B m (fetch summ : String → Except String String) now st url e,
      m.getSummary B st now url = .ok none → fetch url = .error e →
      getSummaryForUrl B m fetch summ now
        (getSummaryForUrl B m fetch summ now st url).2.1 url =
        (unableSummaryMsg e, st, 1))
    ∧ (∀ B m (fetch summ : String → Except String String) now st url sres e stf
        now2 c,
      m.saveSummary B st now url sres = .error (e, stf) →
      m.getSummary B stf now2 url = .ok (some c) →
      getSummaryForUrl B m fetch summ now2 stf url = (c, stf, 0))
    ∧ (∀ B m (fetch summ : String → Except String String) now st url,
      (∃ e, (getSummaryForUrl B m fetch summ now st url).1 = unableSummaryMsg e)
      ∨ (∃ a, fetch url = .ok a ∧
          summ a = .ok (getSummaryForUrl B m fetch summ now st url).1)
      ∨ m.getSummary B st now url =
          .ok (some (getSummaryForUrl B m fetch summ now st url).1)) := by
  refine ⟨?_, ?_, ?_, ?_, ?_, ?_, ?_, ?_⟩
  · intro B m fetch summ now st url cached h
    simp [getSummaryForUrl, h]
  · intro B m fetch summ now st url e h1 h2
    simp [getSummaryForUrl, h1, h2]
  · intro B m fetch summ now st url a e h1 h2 h3
    simp [getSummaryForUrl, h1, h2, h3]
  · intro B m fetch summ now st url a sres e stf h1 h2 h3 h4
    simp [getSummaryForUrl, h1, h2, h3, h4]
  · intro B m fetch summ now st url e h
    simp [getSummaryForUrl, h]
  · intro B m fetch summ now st url e h1 h2
    have hfirst : getSummaryForUrl B m fetch summ now st url =
        (unableSummaryMsg e, st, 1) := by
      simp [getSummaryForUrl, h1, h2]
    rw [hfirst]
    simp [getSummaryForUrl, h1, h2]
  · intro B m fetch summ now st url sres e stf now2 c _ h2
    simp [getSummaryForUrl, h2]
  · intro B m fetch summ now st url
    rcases hget : m.getSummary B st now url with e | o
    · exact Or.inl ⟨e, by simp [getSummaryForUrl, hget]⟩
    · rcases o with _ | cached
      · rcases hf : fetch url with e | a
        · exact Or.inl ⟨e, by simp [getSummaryForUrl, hget, hf]⟩
        · rcases hs : summ a with e | sres
          · exact Or.inl ⟨e, by simp [getSummaryForUrl, hget, hf, hs]⟩
          · rcases hsave : m.saveSummary B st now url sres with ef | st2
            · exact Or.inl ⟨ef.1, by simp [getSummaryForUrl, hget, hf, hs, hsave]⟩
            · refine Or.inr (Or.inl ⟨a, rfl, ?_⟩)
              rw [show (getSummaryForUrl B m fetch summ now st url).1 = sres from by
                simp [getSummaryForUrl, hget, hf, hs, hsave]]
              exact hs
      · refine Or.inr (Or.inr ?_)
        rw [show (getSummaryForUrl B m fetch summ now st url).1 = cached from by
          simp [getSummaryForUrl, hget]]

/-- Witness for the amended C10: a concrete cached hit, a concrete fetch
failure with its re-attempt, a concrete cache-read fault, and a concrete
post-`set` cache-write fault whose summary persists and is served with
zero fetches afterwards. -/
theorem getSummaryForUrl_error_policy_witness :
    CacheManager.getSummary honestBackend CacheManager.new summaryStorage 2 "u" =
      .ok (some "cached summary")
    ∧ getSummaryForUrl honestBackend CacheManager.new
        (fun _ => .ok "article") (fun _ => .ok "summary") 2 summaryStorage "u" =
        ("cached summary", summaryStorage, 0)
    ∧ CacheManager.getSummary honestBackend CacheManager.new [] 2 "u" = .ok none
    ∧ getSummaryForUrl honestBackend CacheManager.new
        (fun _ => .error "net down") (fun _ => .ok "summary") 2 [] "u" =
        (unableSummaryMsg "net down", [], 1)
    ∧ getSummaryForUrl honestBackend CacheManager.new
        (fun _ => .error "net down") (fun _ => .ok "summary") 2
        (getSummaryForUrl honestBackend CacheManager.new
          (fun _ => .error "net down") (fun _ => .ok "summary") 2 [] "u").2.1 "u" =
        (unableSummaryMsg "net down", [], 1)
    ∧ getSummaryForUrl (faultyBackend "storage fault") CacheManager.new
        (fun _ => .ok "article") (fun _ => .ok "summary") 2 [] "u" =
        (unableSummaryMsg "storage fault", [], 0)
    ∧ CacheManager.saveSummary (enforceFaultBackend "quota") CacheManager.new
        [] 1 "v" "s" =
        .error ("quota", [(summaryKey "v", StoredValue.summaryEntry "s" 1 "v")])
    ∧ getSummaryForUrl (enforceFaultBackend "quota") CacheManager.new
        (fun _ => .ok "article") (fun _ => .ok "s") 1 [] "v" =
        (unableSummaryMsg "quota",
          [(summaryKey "v", StoredValue.summaryEntry "s" 1 "v")], 1)
    ∧ getSummaryForUrl (enforceFaultBackend "quota") CacheManager.new
        (fun _ => .ok "article") (fun _ => .ok "s") 3
        [(summaryKey "v", StoredValue.summaryEntry "s" 1 "v")] "v" =
        ("s", [(summaryKey "v", StoredValue.summaryEntry "s" 1 "v")], 0) := by
  have h := getSummaryForUrl_error_policy
  refine ⟨rfl, ?_, rfl, ?_, ?_, ?_, rfl, ?_, ?_⟩
  · exact h.1 honestBackend CacheManager.new _ _ 2 summaryStorage "u" "cached summary" rfl
  · exact h.2.1 honestBackend CacheManager.new _ _ 2 [] "u" "net down" rfl rfl
  · exact h.2.2.2.2.2.1 honestBackend CacheManager.new _ _ 2 [] "u" "net down" rfl rfl
  · exact h.2.2.2.2.1 (faultyBackend "storage fault") CacheManager.new _ _ 2 [] "u"
      "storage fault" rfl
  · exact h.2.2.2.1 (enforceFaultBackend "quota") CacheManager.new _ _ 1 [] "v"
      "article" "s" "quota"
      [(summaryKey "v", StoredValue.summaryEntry "s" 1 "v")] rfl rfl rfl rfl
  · exact h.2.2.2.2.2.2.1 (enforceFaultBackend "quota") CacheManager.new _ _ 1 [] "v"
      "s" "quota" [(summaryKey "v", StoredValue.summaryEntry "s" 1 "v")] 3 "s" rfl rfl

end BaitBreaker
